import Mathlib

/-!
# kubeclarity: the tree update of `backend/pkg/database/full_tree.go`

A shallow embedding of `ObjectTreeHandler` (`SetApplication`, `SetResource`, the three
recursive `update*` functions, `tableChanged` and `LockTable`) together with a model of the
relational store they write to.

* The walk is embedded over an arbitrary store: every ORM call the source makes is a value of
  `Call`, and a handler carries the function that executes a call on the transaction state and
  either yields the next state or fails with the store's error text.
* The caller's tree is a Go pointer that the walk mutates in place; here every function returns
  the tree as it stands when the function returns, also when it returns an error.
* `viewRefreshHandler.TableChanged` is a side effect outside the transaction; the walk carries
  the list of table names it was called with, and a rollback does not undo it.
-/

namespace KubeClarity

/-! ## Data model -/

/-- Modelled from the spec: the Vulnerability entity (its Go type is declared outside
full_tree.go). A caller-assigned primary key and the scalar fields of the row. -/
structure Vulnerability where
  ID : Nat
  Fields : Nat
  deriving DecidableEq, Repr

/-- Modelled from the spec: the CISDockerBenchmarkCheck entity (its Go type is declared outside
full_tree.go). -/
structure CISDockerBenchmarkCheck where
  ID : Nat
  Fields : Nat
  deriving DecidableEq, Repr

/-- Modelled from the spec: the Package entity (its Go type is declared outside full_tree.go);
the source reads and writes its `Vulnerabilities` collection. -/
structure Package where
  ID : Nat
  Fields : Nat
  Vulnerabilities : List Vulnerability
  deriving DecidableEq, Repr

/-- Modelled from the spec: the Resource entity (its Go type is declared outside full_tree.go);
the source reads and writes its `Packages` and `CISDockerBenchmarkChecks` collections. -/
structure Resource where
  ID : Nat
  Fields : Nat
  Packages : List Package
  CISDockerBenchmarkChecks : List CISDockerBenchmarkCheck
  deriving DecidableEq, Repr

/-- Modelled from the spec: the Application entity (its Go type is declared outside
full_tree.go); the source reads and writes its `Resources` collection. -/
structure Application where
  ID : Nat
  Fields : Nat
  Resources : List Resource
  deriving DecidableEq, Repr

/-- The package-level constants full_tree.go refers to; they are declared elsewhere in the
package, so their values are parameters of the embedding. -/
structure Consts where
  DBDriverTypeLocal : String
  DBDriverTypePostgres : String
  applicationTableName : String
  resourceTableName : String
  packageTableName : String
  vulnerabilityTableName : String
  deriving DecidableEq, Repr

/-! ## The ORM calls of the source -/

/-- The calls full_tree.go makes on the transaction handle, one constructor per call site.

* `Exec sql`: `tx.Exec(sql)` (line 163)
* `SavePackage pkg`: `.Omit("Vulnerabilities").Save(pkg)` (line 132)
* `ReplaceVulnerabilities pkg vs`:
  `tx.Model(pkg).Session(FullSaveAssociations).Association("Vulnerabilities").Replace(vs)`
  (lines 139-141)
* `SaveResource r`: `tx.Omit("Packages", "CISDockerBenchmarkChecks").Save(r)` (lines 101-102)
* `ReplacePackages r ps`: `Association("Packages").Replace(ps)` on `r` (lines 108-110)
* `ReplaceChecks r cs`: `Association("CISDockerBenchmarkChecks").Replace(cs)` on `r`
  (lines 116-118)
* `SaveApplication a`: `tx.Omit("Resources").Save(a)` (lines 60-61)
* `ReplaceResources a rs`: `Association("Resources").Replace(rs)` on `a` (lines 67-69) -/
inductive Call where
  | Exec (sql : String)
  | SavePackage (pkg : Package)
  | ReplaceVulnerabilities (pkg : Package) (vulnerabilities : List Vulnerability)
  | SaveResource (resource : Resource)
  | ReplacePackages (resource : Resource) (packages : List Package)
  | ReplaceChecks (resource : Resource) (checks : List CISDockerBenchmarkCheck)
  | SaveApplication (app : Application)
  | ReplaceResources (app : Application) (resources : List Resource)
  deriving DecidableEq, Repr

/-- The handler: its driver type, the store behind `db` (how a call acts on the state of the
open transaction: the next state, or the store's error text), and the constants. -/
structure ObjectTreeHandler (σ : Type) where
  DriverType : String
  db : Call → σ → Except String σ
  consts : Consts

/-- What a walk has done so far: the state of the open transaction and the table names
`viewRefreshHandler.TableChanged` has been called with, oldest first. -/
structure Walk (σ : Type) where
  tx : σ
  notified : List String

/-- What a call of `SetApplication` or `SetResource` leaves behind: the returned error
(`none` is Go's `nil`), the persisted store state, the table-changed notifications emitted,
and the caller's tree as mutated by the call. -/
structure Outcome (σ : Type) (τ : Type) where
  err : Option String
  db : σ
  notified : List String
  tree : τ

/-! ## full_tree.go -/

/-- Embeds `viewRefreshHandler.TableChanged(table)`: the handler lives outside full_tree.go; the
embedding records the call. -/
def TableChanged {σ : Type} (w : Walk σ) (table : String) : Walk σ :=
  { w with notified := w.notified ++ [table] }

/-- Embeds `ObjectTreeHandler.tableChanged` (lines 151-155). -/
def tableChanged {σ : Type} (w : Walk σ) (tables : List String) : Walk σ :=
  tables.foldl TableChanged w

/-- The statement built by `fmt.Sprintf("LOCK TABLE %v IN ACCESS EXCLUSIVE MODE", tableName)`. -/
def lockStatement (tableName : String) : String :=
  "LOCK TABLE " ++ tableName ++ " IN ACCESS EXCLUSIVE MODE"

/-- Embeds `ObjectTreeHandler.LockTable` (lines 157-168). The returned handle is the transaction
state, or the error the `Exec` left on it (every later call on a handle that carries an error
is skipped by the ORM and keeps the error). -/
def LockTable {σ : Type} (o : ObjectTreeHandler σ) (tx : σ) (tableName : String) :
    Except String σ :=
  if o.DriverType = o.consts.DBDriverTypeLocal then
    .ok tx
  else if o.DriverType = o.consts.DBDriverTypePostgres then
    o.db (.Exec (lockStatement tableName)) tx
  else
    .ok tx

/-- Embeds `ObjectTreeHandler.updatePackage` (lines 127-149). -/
def updatePackage {σ : Type} (o : ObjectTreeHandler σ) (w : Walk σ) (pkg : Package)
    (shouldUpdatePackageVulnerabilities : Bool) : Option String × Walk σ :=
  match (LockTable o w.tx o.consts.packageTableName).bind (o.db (.SavePackage pkg)) with
  | .error err => (some ("failed to update package: " ++ err), w)
  | .ok tx1 =>
    if shouldUpdatePackageVulnerabilities then
      match o.db (.ReplaceVulnerabilities pkg pkg.Vulnerabilities) tx1 with
      | .error err =>
        (some ("failed to update package vulnerabilities association: " ++ err),
          { w with tx := tx1 })
      | .ok tx2 =>
        (none, tableChanged { w with tx := tx2 }
          [o.consts.packageTableName, o.consts.vulnerabilityTableName])
    else
      (none, tableChanged { w with tx := tx1 }
        [o.consts.packageTableName, o.consts.vulnerabilityTableName])

/-- The loop of `updateResource` over `resource.Packages` (lines 91-98): returns the error,
the slice as mutated so far, and the walk. -/
def updateResourcePackages {σ : Type} (o : ObjectTreeHandler σ)
    (shouldUpdatePackageVulnerabilities : Bool) :
    Walk σ → List Package → Option String × List Package × Walk σ
  | w, [] => (none, [], w)
  | w, pkg :: rest =>
    match updatePackage o w pkg shouldUpdatePackageVulnerabilities with
    | (some err, w1) => (some ("failed to update package: " ++ err), pkg :: rest, w1)
    | (none, w1) =>
      match updateResourcePackages o shouldUpdatePackageVulnerabilities w1 rest with
      | (e, rest1, w2) => (e, { pkg with Vulnerabilities := [] } :: rest1, w2)

/-- Embeds `ObjectTreeHandler.updateResource` (lines 90-125). -/
def updateResource {σ : Type} (o : ObjectTreeHandler σ) (w : Walk σ) (resource : Resource)
    (shouldUpdatePackageVulnerabilities : Bool) : Option String × Resource × Walk σ :=
  match updateResourcePackages o shouldUpdatePackageVulnerabilities w resource.Packages with
  | (some err, pkgs, w1) => (some err, { resource with Packages := pkgs }, w1)
  | (none, pkgs, w1) =>
    let resource1 : Resource := { resource with Packages := pkgs }
    match o.db (.SaveResource resource1) w1.tx with
    | .error err => (some ("failed to update resource: " ++ err), resource1, w1)
    | .ok tx2 =>
      match o.db (.ReplacePackages resource1 resource1.Packages) tx2 with
      | .error err =>
        (some ("failed to update resource packages association: " ++ err), resource1,
          { w1 with tx := tx2 })
      | .ok tx3 =>
        match o.db (.ReplaceChecks resource1 resource1.CISDockerBenchmarkChecks) tx3 with
        | .error err =>
          (some ("failed to update resource cis_d_b_checks association: " ++ err), resource1,
            { w1 with tx := tx3 })
        | .ok tx4 =>
          (none, resource1, tableChanged { w1 with tx := tx4 }
            [o.consts.resourceTableName, o.consts.packageTableName])

/-- The loop of `updateApplication` over `app.Resources` (lines 49-57): returns the error, the
slice as mutated so far, and the walk. -/
def updateApplicationResources {σ : Type} (o : ObjectTreeHandler σ)
    (shouldUpdatePackageVulnerabilities : Bool) :
    Walk σ → List Resource → Option String × List Resource × Walk σ
  | w, [] => (none, [], w)
  | w, resource :: rest =>
    match updateResource o w resource shouldUpdatePackageVulnerabilities with
    | (some err, resource1, w1) =>
      (some ("failed to update resource: " ++ err), resource1 :: rest, w1)
    | (none, resource1, w1) =>
      match updateApplicationResources o shouldUpdatePackageVulnerabilities w1 rest with
      | (e, rest1, w2) =>
        (e, { resource1 with Packages := [], CISDockerBenchmarkChecks := [] } :: rest1, w2)

/-- Embeds `ObjectTreeHandler.updateApplication` (lines 48-76). -/
def updateApplication {σ : Type} (o : ObjectTreeHandler σ) (w : Walk σ) (app : Application)
    (shouldUpdatePackageVulnerabilities : Bool) : Option String × Application × Walk σ :=
  match updateApplicationResources o shouldUpdatePackageVulnerabilities w app.Resources with
  | (some err, resources, w1) => (some err, { app with Resources := resources }, w1)
  | (none, resources, w1) =>
    let app1 : Application := { app with Resources := resources }
    match o.db (.SaveApplication app1) w1.tx with
    | .error err => (some ("failed to update application: " ++ err), app1, w1)
    | .ok tx2 =>
      match o.db (.ReplaceResources app1 app1.Resources) tx2 with
      | .error err =>
        (some ("failed to update application resources association: " ++ err), app1,
          { w1 with tx := tx2 })
      | .ok tx3 =>
        (none, app1, tableChanged { w1 with tx := tx3 }
          [o.consts.applicationTableName, o.consts.resourceTableName])

/-- Modelled from the spec: `db.Transaction(fc)` of the ORM, which is not part of the
repository's sources: `fc` runs on the state of a new transaction; when it returns an error the
transaction is rolled back (the persisted state stays `db`) and the error is returned, otherwise
the transaction is committed (the persisted state becomes the transaction's). What `fc` did
outside the store (`β`: notifications, the caller's tree) is kept either way. -/
def Transaction {σ β : Type} (db : σ) (fc : σ → Option String × β × σ) :
    Option String × β × σ :=
  match fc db with
  | (some err, b, _) => (some err, b, db)
  | (none, b, tx) => (none, b, tx)

/-- Embeds `ObjectTreeHandler.SetApplication` (lines 36-46), called on the persisted state `db`. The
transaction parameters only decorate the context and are left out. -/
def SetApplication {σ : Type} (o : ObjectTreeHandler σ) (db : σ) (app : Application)
    (shouldUpdatePackageVulnerabilities : Bool) : Outcome σ Application :=
  match Transaction db (fun tx =>
      match updateApplication o ⟨tx, []⟩ app shouldUpdatePackageVulnerabilities with
      | (e, app1, w) => (e, (app1, w.notified), w.tx)) with
  | (some err, (app1, notified), db1) =>
    ⟨some ("failed to update application: " ++ err), db1, notified, app1⟩
  | (none, (app1, notified), db1) => ⟨none, db1, notified, app1⟩

/-- Embeds `ObjectTreeHandler.SetResource` (lines 78-88), called on the persisted state `db`. -/
def SetResource {σ : Type} (o : ObjectTreeHandler σ) (db : σ) (resource : Resource)
    (shouldUpdatePackageVulnerabilities : Bool) : Outcome σ Resource :=
  match Transaction db (fun tx =>
      match updateResource o ⟨tx, []⟩ resource shouldUpdatePackageVulnerabilities with
      | (e, resource1, w) => (e, (resource1, w.notified), w.tx)) with
  | (some err, (resource1, notified), db1) =>
    ⟨some ("failed to update resource: " ++ err), db1, notified, resource1⟩
  | (none, (resource1, notified), db1) => ⟨none, db1, notified, resource1⟩

/-! ## The calls of a complete walk -/

/-- Runs calls in order on a store; stops at the first call the store rejects and reports that
call with the store's error text. -/
def runCalls {σ : Type} (db : Call → σ → Except String σ) :
    List Call → σ → Except (Call × String) σ
  | [], s => .ok s
  | c :: cs, s =>
    match db c s with
    | .error e => .error (c, e)
    | .ok s1 => runCalls db cs s1

/-- The calls `LockTable` makes. -/
def callsLockTable {σ : Type} (o : ObjectTreeHandler σ) (tableName : String) : List Call :=
  if o.DriverType = o.consts.DBDriverTypeLocal then []
  else if o.DriverType = o.consts.DBDriverTypePostgres then [.Exec (lockStatement tableName)]
  else []

/-- The calls of an `updatePackage` that runs to its end. -/
def callsPackage {σ : Type} (o : ObjectTreeHandler σ) (flag : Bool) (pkg : Package) :
    List Call :=
  callsLockTable o o.consts.packageTableName ++ [.SavePackage pkg] ++
    (if flag then [.ReplaceVulnerabilities pkg pkg.Vulnerabilities] else [])

/-- A package after line 97. -/
def clearedPackage (pkg : Package) : Package :=
  { pkg with Vulnerabilities := [] }

/-- A resource after lines 55-56. -/
def clearedResource (resource : Resource) : Resource :=
  { resource with Packages := [], CISDockerBenchmarkChecks := [] }

/-- A resource when its package loop has finished. -/
def walkedResource (resource : Resource) : Resource :=
  { resource with Packages := resource.Packages.map clearedPackage }

/-- An application when its resource loop has finished. -/
def walkedApplication (app : Application) : Application :=
  { app with Resources := app.Resources.map clearedResource }

/-- The calls of an `updateResource` that runs to its end. -/
def callsResource {σ : Type} (o : ObjectTreeHandler σ) (flag : Bool) (resource : Resource) :
    List Call :=
  resource.Packages.flatMap (callsPackage o flag) ++
    [.SaveResource (walkedResource resource),
     .ReplacePackages (walkedResource resource) (walkedResource resource).Packages,
     .ReplaceChecks (walkedResource resource) resource.CISDockerBenchmarkChecks]

/-- The calls of an `updateApplication` that runs to its end. -/
def callsApplication {σ : Type} (o : ObjectTreeHandler σ) (flag : Bool) (app : Application) :
    List Call :=
  app.Resources.flatMap (callsResource o flag) ++
    [.SaveApplication (walkedApplication app),
     .ReplaceResources (walkedApplication app) (walkedApplication app).Resources]

/-- The notifications of an `updateResource` that runs to its end. -/
def notesResource (k : Consts) (resource : Resource) : List String :=
  resource.Packages.flatMap (fun _ => [k.packageTableName, k.vulnerabilityTableName]) ++
    [k.resourceTableName, k.packageTableName]

/-- The notifications of an `updateApplication` that runs to its end. -/
def notesApplication (k : Consts) (app : Application) : List String :=
  app.Resources.flatMap (notesResource k) ++ [k.applicationTableName, k.resourceTableName]

/-- The text `updatePackage` puts in front of the store's error, by failing call. -/
def contextPackage : Call → String
  | .ReplaceVulnerabilities _ _ => "failed to update package vulnerabilities association: "
  | _ => "failed to update package: "

/-- The text `updateResource` puts in front of the store's error, by failing call. -/
def contextResource : Call → String
  | .SaveResource _ => "failed to update resource: "
  | .ReplacePackages _ _ => "failed to update resource packages association: "
  | .ReplaceChecks _ _ => "failed to update resource cis_d_b_checks association: "
  | c => "failed to update package: " ++ contextPackage c

/-- The text `updateApplication` puts in front of the store's error, by failing call. -/
def contextApplication : Call → String
  | .SaveApplication _ => "failed to update application: "
  | .ReplaceResources _ _ => "failed to update application resources association: "
  | c => "failed to update resource: " ++ contextResource c

/-! ## The relational store -/

/-- Modelled from the spec: the persisted state layout (section 6), which the ORM keeps and
full_tree.go only writes through the calls above. Entity tables map a primary key to the scalar
fields of the row, one row per key, also for benchmark checks; the relations are junction
tables (parent key, child key) under the names the source logs at lines 66, 107, 115 and 138:
application_resources, resource_packages, resource_cis_d_b_checks, package_vulnerabilities. -/
structure DB where
  applications : Nat → Option Nat
  resources : Nat → Option Nat
  packages : Nat → Option Nat
  vulnerabilities : Nat → Option Nat
  cis_d_b_checks : Nat → Option Nat
  application_resources : Nat → Nat → Bool
  resource_packages : Nat → Nat → Bool
  resource_cis_d_b_checks : Nat → Nat → Bool
  package_vulnerabilities : Nat → Nat → Bool

/-- Modelled from the spec: an upsert by primary key (insert if absent, else update). -/
def upsert (table : Nat → Option Nat) (key fields : Nat) : Nat → Option Nat :=
  fun k => if k = key then some fields else table k

/-- Modelled from the spec: upserts of child rows, in the order of the submitted collection. -/
def upsertAll (table : Nat → Option Nat) (rows : List (Nat × Nat)) : Nat → Option Nat :=
  rows.foldl (fun t row => upsert t row.1 row.2) table

/-- Modelled from the spec: reconciliation of a relation kept in a junction table (section
4.2): afterwards the parent's link set is exactly the desired children, by primary key; only
junction rows of this parent are inserted or deleted, never a child row. -/
def replaceLinks (links : Nat → Nat → Bool) (parent : Nat) (children : List Nat) :
    Nat → Nat → Bool :=
  fun p c => if p = parent then decide (c ∈ children) else links p c

/-- Modelled from the spec: what each call of full_tree.go does to the store (sections 4.1
step 3 and 4.2). A save upserts the node's own row and no child collection (they are omitted);
a replace upserts the scalar fields of the desired children and makes the parent's link set
equal to them; the lock statement changes no row. The checks of a resource are reconciled by
the same call as the other relations, on the junction table the source names at line 115, so
the call is modelled like the others: the desired check rows are upserted by key, the
resource's links are replaced, and the row of a check that loses its link stays. -/
def DB.apply : Call → DB → DB
  | .Exec _, db => db
  | .SavePackage pkg, db => { db with packages := upsert db.packages pkg.ID pkg.Fields }
  | .ReplaceVulnerabilities pkg vs, db =>
    { db with
      vulnerabilities := upsertAll db.vulnerabilities (vs.map fun v => (v.ID, v.Fields))
      package_vulnerabilities :=
        replaceLinks db.package_vulnerabilities pkg.ID (vs.map fun v => v.ID) }
  | .SaveResource r, db => { db with resources := upsert db.resources r.ID r.Fields }
  | .ReplacePackages r ps, db =>
    { db with
      packages := upsertAll db.packages (ps.map fun p => (p.ID, p.Fields))
      resource_packages := replaceLinks db.resource_packages r.ID (ps.map fun p => p.ID) }
  | .ReplaceChecks r cs, db =>
    { db with
      cis_d_b_checks := upsertAll db.cis_d_b_checks (cs.map fun c => (c.ID, c.Fields))
      resource_cis_d_b_checks :=
        replaceLinks db.resource_cis_d_b_checks r.ID (cs.map fun c => c.ID) }
  | .SaveApplication a, db => { db with applications := upsert db.applications a.ID a.Fields }
  | .ReplaceResources a rs, db =>
    { db with
      resources := upsertAll db.resources (rs.map fun r => (r.ID, r.Fields))
      application_resources :=
        replaceLinks db.application_resources a.ID (rs.map fun r => r.ID) }

/-- Modelled from the spec: a store that rejects the calls `reject` gives an error text for
(persistence and reconciliation failures, section 7) and executes the others. -/
def storeRejecting (reject : Call → Option String) : Call → DB → Except String DB :=
  fun c db =>
    match reject c with
    | some e => .error e
    | none => .ok (db.apply c)

/-- The store when no call fails. -/
def store : Call → DB → Except String DB :=
  storeRejecting (fun _ => none)

/-- All calls of a list, applied in order. -/
def DB.applyAll (db : DB) (calls : List Call) : DB :=
  calls.foldl (fun d c => d.apply c) db

/-- The empty store. -/
def DB.empty : DB :=
  ⟨fun _ => none, fun _ => none, fun _ => none, fun _ => none, fun _ => none,
    fun _ _ => false, fun _ _ => false, fun _ _ => false, fun _ _ => false⟩

/-- The cells of the store: a row of an entity table by key, a junction row by its two
keys. -/
inductive Loc where
  | applications (key : Nat)
  | resources (key : Nat)
  | packages (key : Nat)
  | vulnerabilities (key : Nat)
  | cis_d_b_checks (key : Nat)
  | application_resources (app resource : Nat)
  | resource_packages (resource pkg : Nat)
  | resource_cis_d_b_checks (resource check : Nat)
  | package_vulnerabilities (pkg vulnerability : Nat)

/-- A junction row as a cell: present or absent. -/
def linkCell (b : Bool) : Option Nat :=
  if b then some 0 else none

/-- The content of a cell of the store. -/
def DB.read (d : DB) : Loc → Option Nat
  | .applications key => d.applications key
  | .resources key => d.resources key
  | .packages key => d.packages key
  | .vulnerabilities key => d.vulnerabilities key
  | .cis_d_b_checks key => d.cis_d_b_checks key
  | .application_resources a r => linkCell (d.application_resources a r)
  | .resource_packages r p => linkCell (d.resource_packages r p)
  | .resource_cis_d_b_checks r c => linkCell (d.resource_cis_d_b_checks r c)
  | .package_vulnerabilities p v => linkCell (d.package_vulnerabilities p v)

/-- An update of the store that, cell by cell, either leaves the cell as it is or writes a
content that does not depend on the state. -/
def Overwrites (f : DB → DB) : Prop :=
  ∀ l, (∀ d, (f d).read l = d.read l) ∨ (∃ v, ∀ d, (f d).read l = v)

/-! ## Sample inputs -/

/-- Values for the constants, for evaluating the definitions. -/
def sampleConsts : Consts :=
  ⟨"LOCAL", "POSTGRES", "applications", "resources", "packages", "vulnerabilities"⟩

/-- A handler on the store with the given driver type. -/
def handler (driver : String) (k : Consts) : ObjectTreeHandler DB :=
  ⟨driver, store, k⟩

/-- A handler on a store that rejects some calls. -/
def handlerRejecting (reject : Call → Option String) (driver : String) (k : Consts) :
    ObjectTreeHandler DB :=
  ⟨driver, storeRejecting reject, k⟩

/-- A store that records the calls made on it and accepts them all. -/
def recorder : Call → List Call → Except String (List Call) :=
  fun c log => .ok (log ++ [c])

/-- A handler on the recording store. -/
def recordingHandler (driver : String) (k : Consts) : ObjectTreeHandler (List Call) :=
  ⟨driver, recorder, k⟩

/-- A package with one vulnerability. -/
def samplePackage : Package :=
  ⟨1, 10, [⟨100, 5⟩]⟩

/-- A resource with one package and one benchmark check. -/
def sampleResource : Resource :=
  ⟨7, 70, [samplePackage], [⟨3, 30⟩]⟩

/-- An application with one resource. -/
def sampleApplication : Application :=
  ⟨9, 90, [sampleResource]⟩

/-- The store rejects every package save. -/
def rejectSavePackage : Call → Option String
  | .SavePackage _ => some "duplicate key"
  | _ => none

/-- The store rejects every reconciliation of benchmark checks. -/
def rejectReplaceChecks : Call → Option String
  | .ReplaceChecks _ _ => some "connection lost"
  | _ => none

/-- The store rejects every application save. -/
def rejectSaveApplication : Call → Option String
  | .SaveApplication _ => some "lock timeout"
  | _ => none

/-- A resource that lists the package key 1 twice, first with a vulnerability and then
without. -/
def repeatedPackageResource : Resource :=
  ⟨7, 70, [⟨1, 10, [⟨100, 5⟩]⟩, ⟨1, 10, []⟩], []⟩

/-- A state in which package 1 is linked to vulnerability 100. -/
def linkedDB : DB :=
  { DB.empty with
    packages := fun p => if p = 1 then some 10 else none
    vulnerabilities := fun v => if v = 100 then some 5 else none
    package_vulnerabilities := fun p v => decide (p = 1 ∧ v = 100) }

/-- A resource that submits package 1 without vulnerabilities. -/
def bareResource : Resource :=
  ⟨7, 70, [⟨1, 10, []⟩], []⟩

/-- A state in which application 9 is linked to the resources 7 and 8, and resource 8 has a
row, a link to package 2 and a link to check 4, whose row holds 40. -/
def twoResourcesDB : DB :=
  { DB.empty with
    applications := fun a => if a = 9 then some 90 else none
    resources := fun r => if r = 7 then some 70 else if r = 8 then some 80 else none
    packages := fun p => if p = 2 then some 20 else none
    cis_d_b_checks := fun c => if c = 4 then some 40 else none
    application_resources := fun a r => decide (a = 9 ∧ (r = 7 ∨ r = 8))
    resource_packages := fun r p => decide (r = 8 ∧ p = 2)
    resource_cis_d_b_checks := fun r c => decide (r = 8 ∧ c = 4) }

/-- An application that lists resource 7 only, with check 4 holding 41. -/
def sharedCheckApplication : Application :=
  ⟨9, 90, [⟨7, 70, [], [⟨4, 41⟩]⟩]⟩

/-- An application whose resource has a check and no package. -/
def packagelessApplication : Application :=
  ⟨9, 90, [⟨7, 70, [], [⟨3, 30⟩]⟩]⟩

/-! ## The walk and its calls -/

theorem runCalls_append {σ : Type} (db : Call → σ → Except String σ) (a b : List Call) (s : σ) :
    runCalls db (a ++ b) s =
      match runCalls db a s with
      | .ok s1 => runCalls db b s1
      | .error x => .error x := by
  induction a generalizing s with
  | nil => simp [runCalls]
  | cons c cs ih =>
    simp only [List.cons_append, runCalls]
    cases db c s with
    | error e => simp
    | ok s1 => simpa using ih s1

theorem tableChanged_eq {σ : Type} (w : Walk σ) (tables : List String) :
    tableChanged w tables = ⟨w.tx, w.notified ++ tables⟩ := by
  unfold tableChanged
  induction tables generalizing w with
  | nil => simp
  | cons t ts ih => simp [List.foldl, ih, TableChanged]

theorem LockTable_eq {σ : Type} (o : ObjectTreeHandler σ) (tx : σ) (tableName : String) :
    LockTable o tx tableName =
      match runCalls o.db (callsLockTable o tableName) tx with
      | .ok s => .ok s
      | .error (_, e) => .error e := by
  unfold LockTable callsLockTable
  split_ifs
  · simp [runCalls]
  · simp only [runCalls]
    cases o.db (.Exec (lockStatement tableName)) tx <;> simp
  · simp [runCalls]

/-- An `updatePackage` whose calls all succeed returns nil with the state they lead to and
notifies the package and vulnerability tables; otherwise it returns the error of the first
failing call in its context and notifies nothing. -/
theorem updatePackage_eq {σ : Type} (o : ObjectTreeHandler σ) (w : Walk σ) (pkg : Package)
    (flag : Bool) :
    match runCalls o.db (callsPackage o flag pkg) w.tx with
    | .ok s =>
      updatePackage o w pkg flag =
        (none, ⟨s, w.notified ++ [o.consts.packageTableName, o.consts.vulnerabilityTableName]⟩)
    | .error (c, e) =>
      (updatePackage o w pkg flag).1 = some (contextPackage c ++ e) ∧
        (updatePackage o w pkg flag).2.notified = w.notified ∧
        c ∈ callsPackage o flag pkg := by
  unfold updatePackage callsPackage
  rw [LockTable_eq, List.append_assoc, runCalls_append]
  have hlock : ∀ c ∈ callsLockTable o o.consts.packageTableName,
      contextPackage c = "failed to update package: " := by
    intro c hc
    unfold callsLockTable at hc
    split_ifs at hc <;> simp at hc
    subst hc
    rfl
  cases hl : runCalls o.db (callsLockTable o o.consts.packageTableName) w.tx with
  | error x =>
    obtain ⟨c, e⟩ := x
    have hmem : c ∈ callsLockTable o o.consts.packageTableName := by
      unfold callsLockTable at hl ⊢
      split_ifs at hl ⊢ <;> simp [runCalls] at hl ⊢
      revert hl
      cases o.db (.Exec (lockStatement o.consts.packageTableName)) w.tx <;> simp
      intro h _
      exact h.symm
    simp [Except.bind, hlock c hmem, hmem]
  | ok s0 =>
    simp only [Except.bind, List.cons_append, List.nil_append, runCalls]
    cases o.db (.SavePackage pkg) s0 with
    | error e => simp [contextPackage]
    | ok s1 =>
      cases flag with
      | false => simp [runCalls, tableChanged_eq]
      | true =>
        simp only [if_true, runCalls]
        cases o.db (.ReplaceVulnerabilities pkg pkg.Vulnerabilities) s1 with
        | error e => simp [contextPackage]
        | ok s2 => simp [tableChanged_eq]

theorem contextResource_of_mem_callsPackage {σ : Type} (o : ObjectTreeHandler σ) (flag : Bool)
    (pkg : Package) (c : Call) (hc : c ∈ callsPackage o flag pkg) :
    contextResource c = "failed to update package: " ++ contextPackage c := by
  unfold callsPackage callsLockTable at hc
  simp only [List.mem_append, List.mem_singleton] at hc
  rcases hc with (hc | hc) | hc
  · split_ifs at hc <;> simp at hc
    subst hc
    rfl
  · subst hc
    rfl
  · split_ifs at hc <;> simp at hc
    subst hc
    rfl

/-- The package loop of `updateResource`, by the calls of its packages. -/
theorem updateResourcePackages_eq {σ : Type} (o : ObjectTreeHandler σ) (flag : Bool)
    (w : Walk σ) (pkgs : List Package) :
    match runCalls o.db (pkgs.flatMap (callsPackage o flag)) w.tx with
    | .ok s =>
      updateResourcePackages o flag w pkgs =
        (none, pkgs.map clearedPackage,
          ⟨s, w.notified ++
            pkgs.flatMap (fun _ => [o.consts.packageTableName, o.consts.vulnerabilityTableName])⟩)
    | .error (c, e) =>
      (updateResourcePackages o flag w pkgs).1 = some (contextResource c ++ e) ∧
        c ∈ pkgs.flatMap (callsPackage o flag) := by
  induction pkgs generalizing w with
  | nil => simp [runCalls, updateResourcePackages]
  | cons pkg rest ih =>
    simp only [List.flatMap_cons, runCalls_append, updateResourcePackages]
    have h := updatePackage_eq o w pkg flag
    cases hr : runCalls o.db (callsPackage o flag pkg) w.tx with
    | error x =>
      obtain ⟨c, e⟩ := x
      rw [hr] at h
      obtain ⟨h1, _, h3⟩ := h
      have h1' : updatePackage o w pkg flag =
          (some (contextPackage c ++ e), (updatePackage o w pkg flag).2) := by
        rw [← h1]
      rw [h1']
      simp [contextResource_of_mem_callsPackage o flag pkg c h3, h3, String.append_assoc]
    | ok s =>
      rw [hr] at h
      simp only at h
      rw [h]
      simp only
      have h2 := ih ⟨s, w.notified ++ [o.consts.packageTableName, o.consts.vulnerabilityTableName]⟩
      cases hr2 : runCalls o.db (rest.flatMap (callsPackage o flag)) s with
      | error x =>
        obtain ⟨c, e⟩ := x
        simp only [hr2] at h2
        obtain ⟨h3, h4⟩ := h2
        simp only [List.mem_append]
        exact ⟨h3, Or.inr h4⟩
      | ok s2 =>
        simp only [hr2] at h2
        rw [h2]
        simp [clearedPackage]

theorem mem_callsPackage {σ : Type} (o : ObjectTreeHandler σ) (flag : Bool)
    (pkg : Package) (c : Call) (hc : c ∈ callsPackage o flag pkg) :
    c = .Exec (lockStatement o.consts.packageTableName) ∨ c = .SavePackage pkg ∨
      (flag = true ∧ c = .ReplaceVulnerabilities pkg pkg.Vulnerabilities) := by
  unfold callsPackage callsLockTable at hc
  simp only [List.mem_append, List.mem_singleton] at hc
  rcases hc with (hc | hc) | hc
  · split_ifs at hc <;> simp at hc
    exact Or.inl hc
  · exact Or.inr (Or.inl hc)
  · split_ifs at hc with hf <;> simp at hc
    exact Or.inr (Or.inr ⟨hf, hc⟩)

theorem contextApplication_of_mem_callsResource {σ : Type} (o : ObjectTreeHandler σ)
    (flag : Bool) (resource : Resource) (c : Call) (hc : c ∈ callsResource o flag resource) :
    contextApplication c = "failed to update resource: " ++ contextResource c := by
  unfold callsResource at hc
  simp only [List.mem_append, List.mem_flatMap, List.mem_cons, List.mem_singleton,
    List.not_mem_nil, or_false] at hc
  rcases hc with ⟨pkg, _, hc⟩ | hc | hc | hc
  · rcases mem_callsPackage o flag pkg c hc with h | h | ⟨_, h⟩ <;> subst h <;> rfl
  · subst hc
    rfl
  · subst hc
    rfl
  · subst hc
    rfl

/-- Describes `updateResource` by the calls of the resource. -/
theorem updateResource_eq {σ : Type} (o : ObjectTreeHandler σ) (w : Walk σ)
    (resource : Resource) (flag : Bool) :
    match runCalls o.db (callsResource o flag resource) w.tx with
    | .ok s =>
      updateResource o w resource flag =
        (none, walkedResource resource, ⟨s, w.notified ++ notesResource o.consts resource⟩)
    | .error (c, e) =>
      (updateResource o w resource flag).1 = some (contextResource c ++ e) ∧
        c ∈ callsResource o flag resource := by
  unfold updateResource callsResource
  rw [runCalls_append]
  have h := updateResourcePackages_eq o flag w resource.Packages
  cases hr : runCalls o.db (resource.Packages.flatMap (callsPackage o flag)) w.tx with
  | error x =>
    obtain ⟨c, e⟩ := x
    rw [hr] at h
    obtain ⟨h1, h2⟩ := h
    have h1' : updateResourcePackages o flag w resource.Packages =
        (some (contextResource c ++ e), (updateResourcePackages o flag w resource.Packages).2) := by
      rw [← h1]
    rw [h1']
    simp [h2]
  | ok s =>
    rw [hr] at h
    simp only at h
    rw [h]
    simp only [runCalls, walkedResource]
    cases o.db (.SaveResource { resource with Packages := resource.Packages.map clearedPackage }) s with
    | error e => simp [contextResource]
    | ok s1 =>
      simp only
      cases o.db (.ReplacePackages { resource with Packages := resource.Packages.map clearedPackage }
          (resource.Packages.map clearedPackage)) s1 with
      | error e => simp [contextResource]
      | ok s2 =>
        simp only
        cases o.db (.ReplaceChecks { resource with Packages := resource.Packages.map clearedPackage }
            resource.CISDockerBenchmarkChecks) s2 with
        | error e => simp [contextResource]
        | ok s3 => simp [tableChanged_eq, notesResource]

/-- The resource loop of `updateApplication`, by the calls of its resources. -/
theorem updateApplicationResources_eq {σ : Type} (o : ObjectTreeHandler σ) (flag : Bool)
    (w : Walk σ) (resources : List Resource) :
    match runCalls o.db (resources.flatMap (callsResource o flag)) w.tx with
    | .ok s =>
      updateApplicationResources o flag w resources =
        (none, resources.map clearedResource,
          ⟨s, w.notified ++ resources.flatMap (notesResource o.consts)⟩)
    | .error (c, e) =>
      (updateApplicationResources o flag w resources).1 = some (contextApplication c ++ e) ∧
        c ∈ resources.flatMap (callsResource o flag) := by
  induction resources generalizing w with
  | nil => simp [runCalls, updateApplicationResources]
  | cons resource rest ih =>
    simp only [List.flatMap_cons, runCalls_append, updateApplicationResources]
    have h := updateResource_eq o w resource flag
    cases hr : runCalls o.db (callsResource o flag resource) w.tx with
    | error x =>
      obtain ⟨c, e⟩ := x
      rw [hr] at h
      obtain ⟨h1, h3⟩ := h
      have h1' : updateResource o w resource flag =
          (some (contextResource c ++ e), (updateResource o w resource flag).2) := by
        rw [← h1]
      rw [h1']
      simp [contextApplication_of_mem_callsResource o flag resource c h3, h3,
        String.append_assoc]
    | ok s =>
      rw [hr] at h
      simp only at h
      rw [h]
      simp only
      have h2 := ih ⟨s, w.notified ++ notesResource o.consts resource⟩
      cases hr2 : runCalls o.db (rest.flatMap (callsResource o flag)) s with
      | error x =>
        obtain ⟨c, e⟩ := x
        simp only [hr2] at h2
        obtain ⟨h3, h4⟩ := h2
        simp only [List.mem_append]
        exact ⟨h3, Or.inr h4⟩
      | ok s2 =>
        simp only [hr2] at h2
        rw [h2]
        simp [clearedResource, walkedResource]

/-- Describes `updateApplication` by the calls of the application. -/
theorem updateApplication_eq {σ : Type} (o : ObjectTreeHandler σ) (w : Walk σ)
    (app : Application) (flag : Bool) :
    match runCalls o.db (callsApplication o flag app) w.tx with
    | .ok s =>
      updateApplication o w app flag =
        (none, walkedApplication app, ⟨s, w.notified ++ notesApplication o.consts app⟩)
    | .error (c, e) =>
      (updateApplication o w app flag).1 = some (contextApplication c ++ e) ∧
        c ∈ callsApplication o flag app := by
  unfold updateApplication callsApplication
  rw [runCalls_append]
  have h := updateApplicationResources_eq o flag w app.Resources
  cases hr : runCalls o.db (app.Resources.flatMap (callsResource o flag)) w.tx with
  | error x =>
    obtain ⟨c, e⟩ := x
    rw [hr] at h
    obtain ⟨h1, h2⟩ := h
    have h1' : updateApplicationResources o flag w app.Resources =
        (some (contextApplication c ++ e),
          (updateApplicationResources o flag w app.Resources).2) := by
      rw [← h1]
    rw [h1']
    simp [h2]
  | ok s =>
    rw [hr] at h
    simp only at h
    rw [h]
    simp only [runCalls, walkedApplication]
    cases o.db (.SaveApplication { app with Resources := app.Resources.map clearedResource }) s with
    | error e => simp [contextApplication]
    | ok s1 =>
      simp only
      cases o.db (.ReplaceResources { app with Resources := app.Resources.map clearedResource }
          (app.Resources.map clearedResource)) s1 with
      | error e => simp [contextApplication]
      | ok s2 => simp [tableChanged_eq, notesApplication]

/-- A `SetResource` whose calls all succeed. -/
theorem SetResource_of_ok {σ : Type} (o : ObjectTreeHandler σ) (db : σ) (resource : Resource)
    (flag : Bool) (s : σ) (h : runCalls o.db (callsResource o flag resource) db = .ok s) :
    SetResource o db resource flag =
      ⟨none, s, notesResource o.consts resource, walkedResource resource⟩ := by
  have h1 := updateResource_eq o ⟨db, []⟩ resource flag
  simp only [h] at h1
  simp [SetResource, Transaction, h1]

/-- A `SetResource` one of whose calls fails. -/
theorem SetResource_of_error {σ : Type} (o : ObjectTreeHandler σ) (db : σ)
    (resource : Resource) (flag : Bool) (c : Call) (e : String)
    (h : runCalls o.db (callsResource o flag resource) db = .error (c, e)) :
    (SetResource o db resource flag).err =
        some ("failed to update resource: " ++ (contextResource c ++ e)) ∧
      (SetResource o db resource flag).db = db := by
  have h1 := updateResource_eq o ⟨db, []⟩ resource flag
  simp only [h] at h1
  obtain ⟨h2, _⟩ := h1
  have h3 : updateResource o ⟨db, []⟩ resource flag =
      (some (contextResource c ++ e), (updateResource o ⟨db, []⟩ resource flag).2) := by
    rw [← h2]
  unfold SetResource Transaction
  beta_reduce
  rw [h3]
  simp

/-- A `SetApplication` whose calls all succeed. -/
theorem SetApplication_of_ok {σ : Type} (o : ObjectTreeHandler σ) (db : σ) (app : Application)
    (flag : Bool) (s : σ) (h : runCalls o.db (callsApplication o flag app) db = .ok s) :
    SetApplication o db app flag =
      ⟨none, s, notesApplication o.consts app, walkedApplication app⟩ := by
  have h1 := updateApplication_eq o ⟨db, []⟩ app flag
  simp only [h] at h1
  simp [SetApplication, Transaction, h1]

/-- A `SetApplication` one of whose calls fails. -/
theorem SetApplication_of_error {σ : Type} (o : ObjectTreeHandler σ) (db : σ)
    (app : Application) (flag : Bool) (c : Call) (e : String)
    (h : runCalls o.db (callsApplication o flag app) db = .error (c, e)) :
    (SetApplication o db app flag).err =
        some ("failed to update application: " ++ (contextApplication c ++ e)) ∧
      (SetApplication o db app flag).db = db := by
  have h1 := updateApplication_eq o ⟨db, []⟩ app flag
  simp only [h] at h1
  obtain ⟨h2, _⟩ := h1
  have h3 : updateApplication o ⟨db, []⟩ app flag =
      (some (contextApplication c ++ e), (updateApplication o ⟨db, []⟩ app flag).2) := by
    rw [← h2]
  unfold SetApplication Transaction
  beta_reduce
  rw [h3]
  simp

/-- The error of `SetApplication` is nil or starts with the application context. -/
theorem SetApplication_err_cases {σ : Type} (o : ObjectTreeHandler σ) (db : σ)
    (app : Application) (flag : Bool) :
    (SetApplication o db app flag).err = none ∨
      ∃ rest, (SetApplication o db app flag).err =
        some ("failed to update application: " ++ rest) := by
  cases hr : runCalls o.db (callsApplication o flag app) db with
  | ok s => exact Or.inl (by rw [SetApplication_of_ok o db app flag s hr])
  | error x => exact Or.inr ⟨_, (SetApplication_of_error o db app flag x.1 x.2 hr).1⟩

/-- The error of `SetResource` is nil or starts with the resource context. -/
theorem SetResource_err_cases {σ : Type} (o : ObjectTreeHandler σ) (db : σ)
    (resource : Resource) (flag : Bool) :
    (SetResource o db resource flag).err = none ∨
      ∃ rest, (SetResource o db resource flag).err =
        some ("failed to update resource: " ++ rest) := by
  cases hr : runCalls o.db (callsResource o flag resource) db with
  | ok s => exact Or.inl (by rw [SetResource_of_ok o db resource flag s hr])
  | error x => exact Or.inr ⟨_, (SetResource_of_error o db resource flag x.1 x.2 hr).1⟩

/-- A `SetResource` that returns nil made all its calls. -/
theorem SetResource_ok_calls {σ : Type} (o : ObjectTreeHandler σ) (db : σ) (resource : Resource)
    (flag : Bool) (h : (SetResource o db resource flag).err = none) :
    ∃ s, runCalls o.db (callsResource o flag resource) db = .ok s := by
  cases hr : runCalls o.db (callsResource o flag resource) db with
  | ok s => exact ⟨s, rfl⟩
  | error x =>
    rw [(SetResource_of_error o db resource flag x.1 x.2 hr).1] at h
    cases h

/-- A `SetApplication` that returns nil made all its calls. -/
theorem SetApplication_ok_calls {σ : Type} (o : ObjectTreeHandler σ) (db : σ)
    (app : Application) (flag : Bool) (h : (SetApplication o db app flag).err = none) :
    ∃ s, runCalls o.db (callsApplication o flag app) db = .ok s := by
  cases hr : runCalls o.db (callsApplication o flag app) db with
  | ok s => exact ⟨s, rfl⟩
  | error x =>
    rw [(SetApplication_of_error o db app flag x.1 x.2 hr).1] at h
    cases h

theorem runCalls_recorder (calls log : List Call) :
    runCalls recorder calls log = .ok (log ++ calls) := by
  induction calls generalizing log with
  | nil => simp [runCalls]
  | cons c cs ih => simp [runCalls, recorder, ih]

/-- An `updatePackage` that returns nil made all its calls. -/
theorem updatePackage_ok_calls {σ : Type} (o : ObjectTreeHandler σ) (w : Walk σ) (pkg : Package)
    (flag : Bool) (h : (updatePackage o w pkg flag).1 = none) :
    runCalls o.db (callsPackage o flag pkg) w.tx = .ok (updatePackage o w pkg flag).2.tx := by
  have h1 := updatePackage_eq o w pkg flag
  cases hr : runCalls o.db (callsPackage o flag pkg) w.tx with
  | ok s =>
    rw [hr] at h1
    simp only at h1
    rw [h1]
  | error x =>
    rw [hr] at h1
    rw [h1.1] at h
    cases h

/-- An `updateResource` that returns nil made all its calls. -/
theorem updateResource_ok_calls {σ : Type} (o : ObjectTreeHandler σ) (w : Walk σ)
    (resource : Resource) (flag : Bool) (h : (updateResource o w resource flag).1 = none) :
    runCalls o.db (callsResource o flag resource) w.tx =
      .ok (updateResource o w resource flag).2.2.tx := by
  have h1 := updateResource_eq o w resource flag
  cases hr : runCalls o.db (callsResource o flag resource) w.tx with
  | ok s =>
    rw [hr] at h1
    simp only at h1
    rw [h1]
  | error x =>
    rw [hr] at h1
    rw [h1.1] at h
    cases h

/-- The packages the loop of `updateResource` has cleared are a prefix of the submitted ones, and
the calls of that prefix all succeeded. -/
theorem updateResourcePackages_tree {σ : Type} (o : ObjectTreeHandler σ) (flag : Bool)
    (w : Walk σ) (pkgs : List Package) :
    ∃ n, (updateResourcePackages o flag w pkgs).2.1 =
        (pkgs.take n).map clearedPackage ++ pkgs.drop n ∧
      ∃ s, runCalls o.db ((pkgs.take n).flatMap (callsPackage o flag)) w.tx = .ok s := by
  induction pkgs generalizing w with
  | nil => exact ⟨0, by simp [updateResourcePackages], w.tx, by simp [runCalls]⟩
  | cons pkg rest ih =>
    cases h : (updatePackage o w pkg flag).1 with
    | some err =>
      refine ⟨0, ?_, w.tx, by simp [runCalls]⟩
      have h1 : updatePackage o w pkg flag = (some err, (updatePackage o w pkg flag).2) := by
        rw [← h]
      simp only [updateResourcePackages]
      rw [h1]
      simp
    | none =>
      have hc := updatePackage_ok_calls o w pkg flag h
      have h1 : updatePackage o w pkg flag = (none, (updatePackage o w pkg flag).2) := by
        rw [← h]
      obtain ⟨n, hn, s, hs⟩ := ih (updatePackage o w pkg flag).2
      refine ⟨n + 1, ?_, s, ?_⟩
      · simp only [updateResourcePackages]
        rw [h1]
        simp only [List.take_succ_cons, List.map_cons, List.drop_succ_cons, List.cons_append]
        rw [← hn]
        rfl
      · simp only [List.take_succ_cons, List.flatMap_cons, runCalls_append, hc]
        exact hs

theorem updateResourcePackages_length {σ : Type} (o : ObjectTreeHandler σ) (flag : Bool)
    (w : Walk σ) (pkgs : List Package) :
    (updateResourcePackages o flag w pkgs).2.1.length = pkgs.length := by
  obtain ⟨n, hn, _⟩ := updateResourcePackages_tree o flag w pkgs
  rw [hn]
  simp only [List.length_append, List.length_map, List.length_take, List.length_drop]
  omega

/-- An `updateResource` leaves the resource's checks and the number of its packages as
submitted, whatever it returns. -/
theorem updateResource_tree {σ : Type} (o : ObjectTreeHandler σ) (w : Walk σ)
    (resource : Resource) (flag : Bool) :
    (updateResource o w resource flag).2.1 =
      { resource with Packages := (updateResourcePackages o flag w resource.Packages).2.1 } := by
  unfold updateResource
  rcases h : updateResourcePackages o flag w resource.Packages with ⟨e, pkgs, w1⟩
  cases e with
  | some err => rfl
  | none =>
    simp only
    cases o.db (.SaveResource { resource with Packages := pkgs }) w1.tx with
    | error e => rfl
    | ok s1 =>
      simp only
      cases o.db (.ReplacePackages { resource with Packages := pkgs } pkgs) s1 with
      | error e => rfl
      | ok s2 =>
        simp only
        cases o.db (.ReplaceChecks { resource with Packages := pkgs }
            resource.CISDockerBenchmarkChecks) s2 <;> rfl

/-- The resources the loop of `updateApplication` has cleared are a prefix of the submitted
ones, the calls of that prefix all succeeded, and the other resources keep their checks and
the number of their packages. -/
theorem updateApplicationResources_tree {σ : Type} (o : ObjectTreeHandler σ) (flag : Bool)
    (w : Walk σ) (resources : List Resource) :
    ∃ n rest, (updateApplicationResources o flag w resources).2.1 =
        (resources.take n).map clearedResource ++ rest ∧
      List.Forall₂ (fun r r1 => r1.CISDockerBenchmarkChecks = r.CISDockerBenchmarkChecks ∧
          r1.Packages.length = r.Packages.length) (resources.drop n) rest ∧
      ∃ s, runCalls o.db ((resources.take n).flatMap (callsResource o flag)) w.tx = .ok s := by
  induction resources generalizing w with
  | nil => exact ⟨0, [], by simp [updateApplicationResources], by simp, w.tx, by simp [runCalls]⟩
  | cons resource rest ih =>
    cases h : (updateResource o w resource flag).1 with
    | some err =>
      refine ⟨0, (updateResource o w resource flag).2.1 :: rest, ?_, ?_, w.tx,
        by simp [runCalls]⟩
      · have h1 : updateResource o w resource flag =
            (some err, (updateResource o w resource flag).2.1,
              (updateResource o w resource flag).2.2) := by
          rw [← h]
        simp only [updateApplicationResources]
        rw [h1]
        simp
      · simp only [List.drop_zero]
        refine List.Forall₂.cons ?_ (List.forall₂_same.mpr (fun _ _ => ⟨rfl, rfl⟩))
        rw [updateResource_tree]
        exact ⟨rfl, updateResourcePackages_length o flag w resource.Packages⟩
    | none =>
      have hc := updateResource_ok_calls o w resource flag h
      have h1 : updateResource o w resource flag =
          (none, (updateResource o w resource flag).2.1,
            (updateResource o w resource flag).2.2) := by
        rw [← h]
      obtain ⟨n, rest1, hn, hf, s, hs⟩ := ih (updateResource o w resource flag).2.2
      refine ⟨n + 1, rest1, ?_, ?_, s, ?_⟩
      · simp only [updateApplicationResources]
        rw [h1]
        simp only [List.take_succ_cons, List.map_cons, List.cons_append]
        rw [← hn, updateResource_tree]
        rfl
      · simpa using hf
      · simp only [List.take_succ_cons, List.flatMap_cons, runCalls_append, hc]
        exact hs

theorem updateApplication_tree {σ : Type} (o : ObjectTreeHandler σ) (w : Walk σ)
    (app : Application) (flag : Bool) :
    (updateApplication o w app flag).2.1 =
      { app with Resources := (updateApplicationResources o flag w app.Resources).2.1 } := by
  unfold updateApplication
  rcases h : updateApplicationResources o flag w app.Resources with ⟨e, rs, w1⟩
  cases e with
  | some err => rfl
  | none =>
    simp only
    cases o.db (.SaveApplication { app with Resources := rs }) w1.tx with
    | error e => rfl
    | ok s1 =>
      simp only
      cases o.db (.ReplaceResources { app with Resources := rs } rs) s1 <;> rfl

theorem SetResource_tree {σ : Type} (o : ObjectTreeHandler σ) (db : σ) (resource : Resource)
    (flag : Bool) :
    (SetResource o db resource flag).tree = (updateResource o ⟨db, []⟩ resource flag).2.1 := by
  unfold SetResource Transaction
  beta_reduce
  rcases updateResource o ⟨db, []⟩ resource flag with ⟨e, r, w⟩
  cases e <;> rfl

theorem SetApplication_tree {σ : Type} (o : ObjectTreeHandler σ) (db : σ) (app : Application)
    (flag : Bool) :
    (SetApplication o db app flag).tree = (updateApplication o ⟨db, []⟩ app flag).2.1 := by
  unfold SetApplication Transaction
  beta_reduce
  rcases updateApplication o ⟨db, []⟩ app flag with ⟨e, r, w⟩
  cases e <;> rfl

/-! ## Error handling -/

/-- C7: an error returned by `SetApplication` starts with "failed to update application: "
and one returned by `SetResource` with "failed to update resource: "; when a call of the walk
is rejected by the store the returned error is never nil and is the store's text behind the
contexts of the levels passed, outermost first; a rejected package save under a resource under
an application is reported by `SetApplication` as "failed to update application: failed to
update resource: failed to update package: failed to update package: " and the store's text. -/
theorem C7_errors_are_wrapped {σ : Type} (o : ObjectTreeHandler σ) (db : σ)
    (app : Application) (resource : Resource) (flag : Bool) :
    (∀ msg, (SetApplication o db app flag).err = some msg →
      ∃ rest, msg = "failed to update application: " ++ rest) ∧
    (∀ msg, (SetResource o db resource flag).err = some msg →
      ∃ rest, msg = "failed to update resource: " ++ rest) ∧
    (∀ c e, runCalls o.db (callsApplication o flag app) db = .error (c, e) →
      (SetApplication o db app flag).err =
        some ("failed to update application: " ++ (contextApplication c ++ e))) ∧
    (∀ c e, runCalls o.db (callsResource o flag resource) db = .error (c, e) →
      (SetResource o db resource flag).err =
        some ("failed to update resource: " ++ (contextResource c ++ e))) ∧
    (∀ pkg e, runCalls o.db (callsApplication o flag app) db = .error (.SavePackage pkg, e) →
      (SetApplication o db app flag).err =
        some ("failed to update application: failed to update resource: " ++
          "failed to update package: failed to update package: " ++ e)) := by
  refine ⟨?_, ?_, ?_, ?_, ?_⟩
  · intro msg h
    rcases SetApplication_err_cases o db app flag with h1 | ⟨rest, h1⟩
    · rw [h1] at h
      cases h
    · rw [h1] at h
      exact ⟨rest, (Option.some.inj h).symm⟩
  · intro msg h
    rcases SetResource_err_cases o db resource flag with h1 | ⟨rest, h1⟩
    · rw [h1] at h
      cases h
    · rw [h1] at h
      exact ⟨rest, (Option.some.inj h).symm⟩
  · intro c e h
    exact (SetApplication_of_error o db app flag c e h).1
  · intro c e h
    exact (SetResource_of_error o db resource flag c e h).1
  · intro pkg e h
    rw [(SetApplication_of_error o db app flag _ e h).1]
    simp only [contextApplication, contextResource, contextPackage, String.append_assoc]
    rfl

/-- C7 at a store that rejects the package save, under the Postgres driver. -/
theorem C7_errors_are_wrapped_witness :
    (SetApplication (handlerRejecting rejectSavePackage "POSTGRES" sampleConsts) DB.empty
        sampleApplication true).err =
      some ("failed to update application: failed to update resource: " ++
        "failed to update package: failed to update package: " ++ "duplicate key") :=
  (C7_errors_are_wrapped (handlerRejecting rejectSavePackage "POSTGRES" sampleConsts) DB.empty
    sampleApplication sampleResource true).2.2.2.2 samplePackage "duplicate key" (by rfl)

/-- C3: when the store rejects a call of the walk (the lock statement, a package save, a
vulnerability reconciliation, a resource save, a package or check reconciliation, an application
save, a resource reconciliation), `SetApplication` and `SetResource` return an error and the
persisted state is the state before the call; in particular after a rejected reconciliation of
the checks; and no call that returns an error changes the persisted state. -/
theorem C3_failure_rolls_back {σ : Type} (o : ObjectTreeHandler σ) (db : σ)
    (app : Application) (resource : Resource) (flag : Bool) :
    (∀ c e, runCalls o.db (callsApplication o flag app) db = .error (c, e) →
      (SetApplication o db app flag).err ≠ none ∧ (SetApplication o db app flag).db = db) ∧
    (∀ c e, runCalls o.db (callsResource o flag resource) db = .error (c, e) →
      (SetResource o db resource flag).err ≠ none ∧ (SetResource o db resource flag).db = db) ∧
    (∀ r cs e, runCalls o.db (callsResource o flag resource) db = .error (.ReplaceChecks r cs, e) →
      (SetResource o db resource flag).err =
          some ("failed to update resource: " ++
            "failed to update resource cis_d_b_checks association: " ++ e) ∧
        (SetResource o db resource flag).db = db) ∧
    ((SetApplication o db app flag).err ≠ none → (SetApplication o db app flag).db = db) ∧
    ((SetResource o db resource flag).err ≠ none → (SetResource o db resource flag).db = db) := by
  refine ⟨?_, ?_, ?_, ?_, ?_⟩
  · intro c e h
    have h1 := SetApplication_of_error o db app flag c e h
    exact ⟨by rw [h1.1]; simp, h1.2⟩
  · intro c e h
    have h1 := SetResource_of_error o db resource flag c e h
    exact ⟨by rw [h1.1]; simp, h1.2⟩
  · intro r cs e h
    have h1 := SetResource_of_error o db resource flag _ e h
    refine ⟨?_, h1.2⟩
    rw [h1.1]
    simp only [contextResource, String.append_assoc]
  · intro h
    cases hr : runCalls o.db (callsApplication o flag app) db with
    | ok s =>
      rw [SetApplication_of_ok o db app flag s hr] at h
      exact absurd rfl h
    | error x => exact (SetApplication_of_error o db app flag x.1 x.2 hr).2
  · intro h
    cases hr : runCalls o.db (callsResource o flag resource) db with
    | ok s =>
      rw [SetResource_of_ok o db resource flag s hr] at h
      exact absurd rfl h
    | error x => exact (SetResource_of_error o db resource flag x.1 x.2 hr).2

/-- C3 at a store that rejects the reconciliation of the checks, after the resource row and the
package links were written in the transaction. -/
theorem C3_failure_rolls_back_witness :
    (SetResource (handlerRejecting rejectReplaceChecks "LOCAL" sampleConsts) DB.empty
        sampleResource true).err =
      some ("failed to update resource: " ++
        "failed to update resource cis_d_b_checks association: " ++ "connection lost") ∧
    (SetResource (handlerRejecting rejectReplaceChecks "LOCAL" sampleConsts) DB.empty
        sampleResource true).db = DB.empty :=
  (C3_failure_rolls_back (handlerRejecting rejectReplaceChecks "LOCAL" sampleConsts) DB.empty
    sampleApplication sampleResource true).2.2.1 (walkedResource sampleResource)
    sampleResource.CISDockerBenchmarkChecks "connection lost" (by rfl)

/-! ## Notifications -/

/-- C4, as stated, fails: with `updateVulnerabilities` false, a `SetResource` on a resource
with one package succeeds and `TableChanged` is called with the vulnerability table. -/
theorem C4_counterexample :
    (SetResource (handler "LOCAL" sampleConsts) DB.empty sampleResource false).err = none ∧
    sampleConsts.vulnerabilityTableName ∈
      (SetResource (handler "LOCAL" sampleConsts) DB.empty sampleResource false).notified := by
  decide

/-- C4, amended: `TableChanged` is called for the vulnerability table with the flag true or
false: an `updatePackage` that returns nil has called it for the package table and then for the
vulnerability table. A `SetResource` that returns without error has emitted that pair once per
submitted package and then the resource and package tables; a `SetApplication` that returns
without error has emitted this for each resource and then the application and resource tables;
so two calls that both return without error emit the same notifications, whatever their flags.
A call that returns without error names the vulnerability table when the tree holds a package,
also with the flag false, and does not name it when the tree holds none (the table names being
distinct). -/
theorem C4_notifications_ignore_flag {σ : Type} (o : ObjectTreeHandler σ) (w : Walk σ) (db : σ)
    (app : Application) (resource : Resource) (pkg : Package) (flag flag2 : Bool) :
    ((updatePackage o w pkg flag).1 = none →
      (updatePackage o w pkg flag).2.notified =
        w.notified ++ [o.consts.packageTableName, o.consts.vulnerabilityTableName]) ∧
    ((SetResource o db resource flag).err = none →
      (SetResource o db resource flag).notified =
        resource.Packages.flatMap
            (fun _ => [o.consts.packageTableName, o.consts.vulnerabilityTableName]) ++
          [o.consts.resourceTableName, o.consts.packageTableName]) ∧
    ((SetApplication o db app flag).err = none →
      (SetApplication o db app flag).notified =
        app.Resources.flatMap (fun r =>
            r.Packages.flatMap
                (fun _ => [o.consts.packageTableName, o.consts.vulnerabilityTableName]) ++
              [o.consts.resourceTableName, o.consts.packageTableName]) ++
          [o.consts.applicationTableName, o.consts.resourceTableName]) ∧
    ((SetResource o db resource flag).err = none →
      (SetResource o db resource flag2).err = none →
      (SetResource o db resource flag).notified = (SetResource o db resource flag2).notified) ∧
    ((SetApplication o db app flag).err = none →
      (SetApplication o db app flag2).err = none →
      (SetApplication o db app flag).notified = (SetApplication o db app flag2).notified) ∧
    ((SetResource o db resource flag).err = none → resource.Packages ≠ [] →
      o.consts.vulnerabilityTableName ∈ (SetResource o db resource flag).notified) ∧
    ((SetApplication o db app flag).err = none → (∃ r ∈ app.Resources, r.Packages ≠ []) →
      o.consts.vulnerabilityTableName ∈ (SetApplication o db app flag).notified) ∧
    ((SetResource o db resource flag).err = none → resource.Packages = [] →
      o.consts.vulnerabilityTableName ≠ o.consts.resourceTableName →
      o.consts.vulnerabilityTableName ≠ o.consts.packageTableName →
      o.consts.vulnerabilityTableName ∉ (SetResource o db resource flag).notified) ∧
    ((SetApplication o db app flag).err = none → (∀ r ∈ app.Resources, r.Packages = []) →
      o.consts.vulnerabilityTableName ≠ o.consts.applicationTableName →
      o.consts.vulnerabilityTableName ≠ o.consts.resourceTableName →
      o.consts.vulnerabilityTableName ≠ o.consts.packageTableName →
      o.consts.vulnerabilityTableName ∉ (SetApplication o db app flag).notified) := by
  have hres : ∀ f, (SetResource o db resource f).err = none →
      (SetResource o db resource f).notified = notesResource o.consts resource := by
    intro f h
    obtain ⟨s, hs⟩ := SetResource_ok_calls o db resource f h
    rw [SetResource_of_ok o db resource f s hs]
  have happ : ∀ f, (SetApplication o db app f).err = none →
      (SetApplication o db app f).notified = notesApplication o.consts app := by
    intro f h
    obtain ⟨s, hs⟩ := SetApplication_ok_calls o db app f h
    rw [SetApplication_of_ok o db app f s hs]
  refine ⟨?_, ?_, ?_, ?_, ?_, ?_, ?_, ?_, ?_⟩
  · intro h
    have h1 := updatePackage_eq o w pkg flag
    cases hr : runCalls o.db (callsPackage o flag pkg) w.tx with
    | ok s =>
      rw [hr] at h1
      simp only at h1
      rw [h1]
    | error x =>
      rw [hr] at h1
      rw [h1.1] at h
      cases h
  · intro h
    rw [hres flag h]
    rfl
  · intro h
    rw [happ flag h]
    rfl
  · intro h h2
    rw [hres flag h, hres flag2 h2]
  · intro h h2
    rw [happ flag h, happ flag2 h2]
  · intro h hne
    rw [hres flag h]
    obtain ⟨p, rest, hp⟩ := List.exists_cons_of_ne_nil hne
    simp [notesResource, hp]
  · intro h hex
    rw [happ flag h]
    obtain ⟨r, hr, hne⟩ := hex
    obtain ⟨p, rest, hp⟩ := List.exists_cons_of_ne_nil hne
    simp only [notesApplication, List.mem_append, List.mem_flatMap]
    exact Or.inl ⟨r, hr, by simp [notesResource, hp]⟩
  · intro h hnil h1 h2
    rw [hres flag h]
    simp [notesResource, hnil, h1, h2]
  · intro h hnil h0 h1 h2
    rw [happ flag h]
    simp only [notesApplication, List.mem_append, List.mem_flatMap, not_or, not_exists, not_and]
    refine ⟨fun r hr => ?_, by simp [h0, h1]⟩
    simp [notesResource, hnil r hr, h1, h2]

/-- C4 (amended) on the sample resource, with the flag false: the successful call names the
vulnerability table. -/
theorem C4_notifications_ignore_flag_witness :
    (SetResource (handler "LOCAL" sampleConsts) DB.empty sampleResource false).notified =
      ["packages", "vulnerabilities", "resources", "packages"] :=
  (C4_notifications_ignore_flag (handler "LOCAL" sampleConsts) ⟨DB.empty, []⟩ DB.empty
    sampleApplication sampleResource samplePackage false true).2.1 (by decide)

/-- C10: notifications are emitted during the walk. On an application with one resource that
holds one package, at a store that rejects the application's own save, `SetApplication` returns
an error and the persisted state is unchanged, yet `TableChanged` was called for the package,
vulnerability, resource and package tables. And a call that fails before its first node
finishes emits no notification: when the tree starts with a package and the save of that
package fails (or any call of that package), when it starts with a resource without packages
and a call of that resource fails, and when an application without resources fails. -/
theorem C10_notifications_precede_outcome {σ : Type} (o : ObjectTreeHandler σ) (db : σ)
    (app : Application) (resource : Resource) (flag : Bool) :
    ((SetApplication (handlerRejecting rejectSaveApplication "LOCAL" sampleConsts) DB.empty
          sampleApplication flag).err =
        some "failed to update application: failed to update application: lock timeout" ∧
      (SetApplication (handlerRejecting rejectSaveApplication "LOCAL" sampleConsts) DB.empty
          sampleApplication flag).db = DB.empty ∧
      (SetApplication (handlerRejecting rejectSaveApplication "LOCAL" sampleConsts) DB.empty
          sampleApplication flag).notified =
        [sampleConsts.packageTableName, sampleConsts.vulnerabilityTableName,
          sampleConsts.resourceTableName, sampleConsts.packageTableName]) ∧
    (∀ pkg rest e, resource.Packages = pkg :: rest →
      (LockTable o db o.consts.packageTableName).bind (o.db (.SavePackage pkg)) = .error e →
      (SetResource o db resource flag).err ≠ none ∧
        (SetResource o db resource flag).notified = []) ∧
    (∀ r rs pkg rest e, app.Resources = r :: rs → r.Packages = pkg :: rest →
      (LockTable o db o.consts.packageTableName).bind (o.db (.SavePackage pkg)) = .error e →
      (SetApplication o db app flag).err ≠ none ∧
        (SetApplication o db app flag).notified = []) ∧
    (∀ pkg rest x, resource.Packages = pkg :: rest →
      runCalls o.db (callsPackage o flag pkg) db = .error x →
      (SetResource o db resource flag).err ≠ none ∧
        (SetResource o db resource flag).notified = []) ∧
    (∀ r rs pkg rest x, app.Resources = r :: rs → r.Packages = pkg :: rest →
      runCalls o.db (callsPackage o flag pkg) db = .error x →
      (SetApplication o db app flag).err ≠ none ∧
        (SetApplication o db app flag).notified = []) ∧
    (resource.Packages = [] → (SetResource o db resource flag).err ≠ none →
      (SetResource o db resource flag).notified = []) ∧
    (∀ r rs, app.Resources = r :: rs → r.Packages = [] →
      (updateResource o ⟨db, []⟩ r flag).1 ≠ none →
      (SetApplication o db app flag).err ≠ none ∧
        (SetApplication o db app flag).notified = []) ∧
    (app.Resources = [] → (SetApplication o db app flag).err ≠ none →
      (SetApplication o db app flag).notified = []) := by
  have hpkg : ∀ pkg x, runCalls o.db (callsPackage o flag pkg) db = .error x →
      ∃ err, updatePackage o ⟨db, []⟩ pkg flag =
        (some err, ⟨(updatePackage o ⟨db, []⟩ pkg flag).2.tx, []⟩) := by
    intro pkg x hx
    have h := updatePackage_eq o ⟨db, []⟩ pkg flag
    simp only [hx] at h
    obtain ⟨h1, h2, _⟩ := h
    rcases hup : updatePackage o ⟨db, []⟩ pkg flag with ⟨e1, w1⟩
    rw [hup] at h1 h2
    simp only at h1 h2
    subst h1
    cases w1
    simp only at h2
    subst h2
    exact ⟨_, rfl⟩
  have hres0 : ∀ r : Resource, r.Packages = [] → (updateResource o ⟨db, []⟩ r flag).1 ≠ none →
      (updateResource o ⟨db, []⟩ r flag).2.2.notified = [] := by
    intro r hr
    simp only [updateResource, hr, updateResourcePackages]
    cases o.db (.SaveResource { r with Packages := [] }) db with
    | error e => simp
    | ok s1 =>
      simp only
      cases o.db (.ReplacePackages { r with Packages := [] } []) s1 with
      | error e => simp
      | ok s2 =>
        simp only
        cases o.db (.ReplaceChecks { r with Packages := [] } r.CISDockerBenchmarkChecks) s2 with
        | error e => simp
        | ok s3 => simp
  refine ⟨?_, ?_, ?_, ?_, ?_, ?_, ?_, ?_⟩
  · cases flag
    · exact ⟨by decide, rfl, by decide⟩
    · exact ⟨by decide, rfl, by decide⟩
  · intro pkg rest e hp he
    simp [SetResource, Transaction, updateResource, hp, updateResourcePackages, updatePackage, he]
  · intro r rs pkg rest e hr hp he
    simp [SetApplication, Transaction, updateApplication, hr, updateApplicationResources,
      updateResource, hp, updateResourcePackages, updatePackage, he]
  · intro pkg rest x hp hx
    obtain ⟨err, herr⟩ := hpkg pkg x hx
    simp only [SetResource, Transaction, updateResource, hp, updateResourcePackages]
    rw [herr]
    simp
  · intro r rs pkg rest x hr hp hx
    obtain ⟨err, herr⟩ := hpkg pkg x hx
    simp only [SetApplication, Transaction, updateApplication, hr, updateApplicationResources,
      updateResource, hp, updateResourcePackages]
    rw [herr]
    simp
  · intro hp herr
    have h1 : (SetResource o db resource flag).notified =
        (updateResource o ⟨db, []⟩ resource flag).2.2.notified := by
      unfold SetResource Transaction
      beta_reduce
      rcases updateResource o ⟨db, []⟩ resource flag with ⟨e, r, w⟩
      cases e <;> rfl
    have h2 : (updateResource o ⟨db, []⟩ resource flag).1 ≠ none := by
      intro h3
      apply herr
      obtain ⟨s, hs⟩ : ∃ s, runCalls o.db (callsResource o flag resource) db = .ok s :=
        ⟨_, updateResource_ok_calls o ⟨db, []⟩ resource flag h3⟩
      rw [SetResource_of_ok o db resource flag s hs]
    rw [h1]
    exact hres0 resource hp h2
  · intro r rs hr hp herr
    have h0 := hres0 r hp herr
    rcases hup : updateResource o ⟨db, []⟩ r flag with ⟨e1, r1, w1⟩
    rw [hup] at h0 herr
    simp only at h0 herr
    obtain ⟨m, hm⟩ := Option.ne_none_iff_exists.mp herr
    subst hm
    simp [SetApplication, Transaction, updateApplication, hr, updateApplicationResources, hup, h0]
  · intro hr herr
    revert herr
    simp only [SetApplication, Transaction, updateApplication, hr, updateApplicationResources]
    cases o.db (.SaveApplication { app with Resources := [] }) db with
    | error e => simp
    | ok s1 =>
      simp only
      cases o.db (.ReplaceResources { app with Resources := [] } []) s1 with
      | error e => simp
      | ok s2 => simp

/-- C10 at a store that rejects the first package save, under the Postgres driver. -/
theorem C10_notifications_precede_outcome_witness :
    (SetResource (handlerRejecting rejectSavePackage "POSTGRES" sampleConsts) DB.empty
        sampleResource true).err ≠ none ∧
    (SetResource (handlerRejecting rejectSavePackage "POSTGRES" sampleConsts) DB.empty
        sampleResource true).notified = [] :=
  (C10_notifications_precede_outcome (handlerRejecting rejectSavePackage "POSTGRES" sampleConsts)
    DB.empty sampleApplication sampleResource true).2.1 samplePackage [] "duplicate key"
    (by rfl) (by rfl)

/-! ## The table lock -/

/-- C8: under the Postgres driver `LockTable` executes exactly the statement
"LOCK TABLE <tableName> IN ACCESS EXCLUSIVE MODE" on the transaction; under the local driver or
any other driver type it makes no call and returns the transaction as it is. In a tree update
that runs to its end the calls made on the store are, for each submitted package in order, the
lock statement for the package table (Postgres only), immediately followed by that package's
save and, when the flag is set, its vulnerability reconciliation, and after a resource's
packages the resource's save and two reconciliations; no other statement is executed: every
`Exec` of the walk is the lock of the package table. The save is made on the handle `LockTable`
returns: when the lock fails, `updatePackage` returns the lock's error and nothing is saved. -/
theorem C8_lock_table {σ : Type} (o : ObjectTreeHandler σ) (tx : σ) (tableName : String)
    (driver : String) (k : Consts) (log : List Call) (app : Application) (resource : Resource)
    (flag : Bool) :
    (o.DriverType = o.consts.DBDriverTypePostgres →
      o.consts.DBDriverTypeLocal ≠ o.consts.DBDriverTypePostgres →
      LockTable o tx tableName =
        o.db (.Exec ("LOCK TABLE " ++ tableName ++ " IN ACCESS EXCLUSIVE MODE")) tx) ∧
    (o.DriverType ≠ o.consts.DBDriverTypePostgres → LockTable o tx tableName = .ok tx) ∧
    (driver = k.DBDriverTypePostgres → k.DBDriverTypeLocal ≠ k.DBDriverTypePostgres →
      LockTable (recordingHandler driver k) log tableName =
        .ok (log ++ [.Exec ("LOCK TABLE " ++ tableName ++ " IN ACCESS EXCLUSIVE MODE")])) ∧
    (driver ≠ k.DBDriverTypePostgres →
      LockTable (recordingHandler driver k) log tableName = .ok log) ∧
    (SetResource (recordingHandler driver k) [] resource flag).db =
      resource.Packages.flatMap (fun p =>
          (if driver = k.DBDriverTypeLocal then []
            else if driver = k.DBDriverTypePostgres then
              [Call.Exec ("LOCK TABLE " ++ k.packageTableName ++ " IN ACCESS EXCLUSIVE MODE")]
            else []) ++
          [Call.SavePackage p] ++
          (if flag then [Call.ReplaceVulnerabilities p p.Vulnerabilities] else [])) ++
        [Call.SaveResource (walkedResource resource),
         Call.ReplacePackages (walkedResource resource) (walkedResource resource).Packages,
         Call.ReplaceChecks (walkedResource resource) resource.CISDockerBenchmarkChecks] ∧
    (SetApplication (recordingHandler driver k) [] app flag).db =
      app.Resources.flatMap (fun r =>
          r.Packages.flatMap (fun p =>
              (if driver = k.DBDriverTypeLocal then []
                else if driver = k.DBDriverTypePostgres then
                  [Call.Exec ("LOCK TABLE " ++ k.packageTableName ++ " IN ACCESS EXCLUSIVE MODE")]
                else []) ++
              [Call.SavePackage p] ++
              (if flag then [Call.ReplaceVulnerabilities p p.Vulnerabilities] else [])) ++
            [Call.SaveResource (walkedResource r),
             Call.ReplacePackages (walkedResource r) (walkedResource r).Packages,
             Call.ReplaceChecks (walkedResource r) r.CISDockerBenchmarkChecks]) ++
        [Call.SaveApplication (walkedApplication app),
         Call.ReplaceResources (walkedApplication app) (walkedApplication app).Resources] ∧
    (∀ sql, Call.Exec sql ∈ (SetApplication (recordingHandler driver k) [] app flag).db →
      sql = "LOCK TABLE " ++ k.packageTableName ++ " IN ACCESS EXCLUSIVE MODE" ∧
        driver = k.DBDriverTypePostgres) ∧
    (∀ pkg notified e, LockTable o tx o.consts.packageTableName = .error e →
      updatePackage o ⟨tx, notified⟩ pkg flag =
        (some ("failed to update package: " ++ e), ⟨tx, notified⟩)) := by
  have hres : (SetResource (recordingHandler driver k) [] resource flag).db =
      callsResource (recordingHandler driver k) flag resource := by
    rw [SetResource_of_ok _ _ _ _ _ (runCalls_recorder _ _)]
    simp
  have happ : (SetApplication (recordingHandler driver k) [] app flag).db =
      callsApplication (recordingHandler driver k) flag app := by
    rw [SetApplication_of_ok _ _ _ _ _ (runCalls_recorder _ _)]
    simp
  refine ⟨?_, ?_, ?_, ?_, ?_, ?_, ?_, ?_⟩
  · intro h1 h2
    have h3 : o.DriverType ≠ o.consts.DBDriverTypeLocal := by
      rw [h1]
      exact fun h => h2 h.symm
    unfold LockTable
    rw [if_neg h3, if_pos h1]
    rfl
  · intro h1
    unfold LockTable
    split_ifs <;> rfl
  · intro h1 h2
    have h3 : driver ≠ k.DBDriverTypeLocal := by
      rw [h1]
      exact fun h => h2 h.symm
    simp only [LockTable, recordingHandler]
    rw [if_neg h3, if_pos h1]
    rfl
  · intro h1
    simp only [LockTable, recordingHandler]
    split_ifs <;> rfl
  · rw [hres]
    rfl
  · rw [happ]
    rfl
  · intro sql hmem
    rw [happ] at hmem
    simp only [callsApplication, List.mem_append, List.mem_flatMap] at hmem
    rcases hmem with ⟨r, _, hc⟩ | hc
    · simp only [callsResource, List.mem_append, List.mem_flatMap] at hc
      rcases hc with ⟨p, _, hc⟩ | hc
      · rcases mem_callsPackage _ flag p _ hc with h | h | ⟨_, h⟩
        · simp only [callsPackage, callsLockTable, recordingHandler, List.mem_append] at hc
          rcases hc with (hc | hc) | hc
          · split_ifs at hc with h1 h2
            · simp at hc
            · simp only [List.mem_singleton, Call.Exec.injEq] at hc
              exact ⟨by rw [hc]; rfl, h2⟩
            · simp at hc
          · simp at hc
          · split_ifs at hc <;> simp at hc
        · cases h
        · cases h
      · simp at hc
    · simp at hc
  · intro pkg notified e he
    simp [updatePackage, he, Except.bind]

/-- C8 at the Postgres driver: the statement is executed on the store. -/
theorem C8_lock_table_witness :
    LockTable (recordingHandler "POSTGRES" sampleConsts) [] "packages" =
      .ok [Call.Exec "LOCK TABLE packages IN ACCESS EXCLUSIVE MODE"] :=
  (C8_lock_table (recordingHandler "POSTGRES" sampleConsts) [] "packages" "POSTGRES"
    sampleConsts [] sampleApplication sampleResource true).2.2.1 (by decide) (by decide)

/-! ## The caller's tree -/

/-- C9: when `updateApplication` reconciles the Resources association every resource it passes
has no packages and no checks, and when `updateResource` reconciles the Packages association
every package it passes has no vulnerabilities. After a successful `SetApplication` the
caller's tree has every resource without packages and without checks; after a successful
`SetResource` the resource keeps its checks and its packages, each package without
vulnerabilities. A child is cleared only after its own update succeeded: whatever the call
returns, the cleared children are a prefix of the submitted ones whose calls all succeeded. -/
theorem C9_children_cleared {σ : Type} (o : ObjectTreeHandler σ) (db : σ) (app : Application)
    (resource : Resource) (flag : Bool) (driver : String) (k : Consts) :
    (∀ a rs, Call.ReplaceResources a rs ∈
        (SetApplication (recordingHandler driver k) [] app flag).db →
      rs.length = app.Resources.length ∧
        ∀ r ∈ rs, r.Packages = [] ∧ r.CISDockerBenchmarkChecks = []) ∧
    (∀ r ps, Call.ReplacePackages r ps ∈
        (SetApplication (recordingHandler driver k) [] app flag).db →
      ∀ p ∈ ps, p.Vulnerabilities = []) ∧
    (∀ r ps, Call.ReplacePackages r ps ∈
        (SetResource (recordingHandler driver k) [] resource flag).db →
      ps.length = resource.Packages.length ∧ ∀ p ∈ ps, p.Vulnerabilities = []) ∧
    ((SetApplication o db app flag).err = none →
      (SetApplication o db app flag).tree =
        { app with Resources := app.Resources.map fun r =>
            { r with Packages := [], CISDockerBenchmarkChecks := [] } }) ∧
    ((SetResource o db resource flag).err = none →
      (SetResource o db resource flag).tree =
        { resource with Packages := resource.Packages.map fun p =>
            { p with Vulnerabilities := [] } }) ∧
    (∃ n, (SetResource o db resource flag).tree =
        { resource with Packages :=
            (resource.Packages.take n).map clearedPackage ++ resource.Packages.drop n } ∧
      ∃ s, runCalls o.db ((resource.Packages.take n).flatMap (callsPackage o flag)) db = .ok s) ∧
    (∃ n rest, (SetApplication o db app flag).tree =
        { app with Resources :=
            (app.Resources.take n).map clearedResource ++ rest } ∧
      List.Forall₂ (fun r r1 => r1.CISDockerBenchmarkChecks = r.CISDockerBenchmarkChecks ∧
          r1.Packages.length = r.Packages.length) (app.Resources.drop n) rest ∧
      ∃ s, runCalls o.db ((app.Resources.take n).flatMap (callsResource o flag)) db = .ok s) := by
  have hres : (SetResource (recordingHandler driver k) [] resource flag).db =
      callsResource (recordingHandler driver k) flag resource := by
    rw [SetResource_of_ok _ _ _ _ _ (runCalls_recorder _ _)]
    simp
  have happ : (SetApplication (recordingHandler driver k) [] app flag).db =
      callsApplication (recordingHandler driver k) flag app := by
    rw [SetApplication_of_ok _ _ _ _ _ (runCalls_recorder _ _)]
    simp
  have hpk : ∀ (r0 : Resource) r ps,
      Call.ReplacePackages r ps ∈ callsResource (recordingHandler driver k) flag r0 →
      ps.length = r0.Packages.length ∧ ∀ p ∈ ps, p.Vulnerabilities = [] := by
    intro r0 r ps hmem
    simp only [callsResource, List.mem_append, List.mem_flatMap] at hmem
    rcases hmem with ⟨p, _, hc⟩ | hc
    · rcases mem_callsPackage _ flag p _ hc with h | h | ⟨_, h⟩ <;> cases h
    · simp only [List.mem_cons, List.mem_singleton, List.not_mem_nil, or_false, reduceCtorEq,
        false_or, Call.ReplacePackages.injEq] at hc
      obtain ⟨_, hc⟩ := hc
      subst hc
      refine ⟨by simp [walkedResource], ?_⟩
      intro p hp
      simp only [walkedResource, List.mem_map] at hp
      obtain ⟨q, _, hq⟩ := hp
      rw [← hq]
      rfl
  refine ⟨?_, ?_, ?_, ?_, ?_, ?_, ?_⟩
  · intro a rs hmem
    rw [happ] at hmem
    simp only [callsApplication, List.mem_append, List.mem_flatMap] at hmem
    rcases hmem with ⟨r, _, hc⟩ | hc
    · simp only [callsResource, List.mem_append, List.mem_flatMap] at hc
      rcases hc with ⟨p, _, hc⟩ | hc
      · rcases mem_callsPackage _ flag p _ hc with h | h | ⟨_, h⟩ <;> cases h
      · simp at hc
    · simp only [List.mem_cons, List.mem_singleton, List.not_mem_nil, or_false, reduceCtorEq,
        false_or, Call.ReplaceResources.injEq] at hc
      obtain ⟨_, hc⟩ := hc
      subst hc
      refine ⟨by simp [walkedApplication], ?_⟩
      intro r hr
      simp only [walkedApplication, List.mem_map] at hr
      obtain ⟨q, _, hq⟩ := hr
      rw [← hq]
      exact ⟨rfl, rfl⟩
  · intro r ps hmem
    rw [happ] at hmem
    simp only [callsApplication, List.mem_append, List.mem_flatMap] at hmem
    rcases hmem with ⟨r0, _, hc⟩ | hc
    · exact (hpk r0 r ps hc).2
    · simp at hc
  · intro r ps hmem
    rw [hres] at hmem
    exact hpk resource r ps hmem
  · intro h
    obtain ⟨s, hs⟩ := SetApplication_ok_calls o db app flag h
    rw [SetApplication_of_ok o db app flag s hs]
    rfl
  · intro h
    obtain ⟨s, hs⟩ := SetResource_ok_calls o db resource flag h
    rw [SetResource_of_ok o db resource flag s hs]
    rfl
  · obtain ⟨n, hn, hs⟩ := updateResourcePackages_tree o flag ⟨db, []⟩ resource.Packages
    refine ⟨n, ?_, hs⟩
    rw [SetResource_tree, updateResource_tree, hn]
  · obtain ⟨n, rest, hn, hf, hs⟩ := updateApplicationResources_tree o flag ⟨db, []⟩ app.Resources
    refine ⟨n, rest, ?_, hf, hs⟩
    rw [SetApplication_tree, updateApplication_tree, hn]

/-- C9 on the sample resource at the store: the returned tree keeps the check and the package,
the package without its vulnerability. -/
theorem C9_children_cleared_witness :
    (SetResource (handler "LOCAL" sampleConsts) DB.empty sampleResource true).tree =
      ⟨7, 70, [⟨1, 10, []⟩], [⟨3, 30⟩]⟩ :=
  (C9_children_cleared (handler "LOCAL" sampleConsts) DB.empty sampleApplication sampleResource
    true "LOCAL" sampleConsts).2.2.2.2.1 (by decide)

/-! ## The walk on the relational store -/

theorem DB.applyAll_append (db : DB) (a b : List Call) :
    db.applyAll (a ++ b) = (db.applyAll a).applyAll b := by
  simp [DB.applyAll, List.foldl_append]

theorem DB.applyAll_cons (db : DB) (c : Call) (cs : List Call) :
    db.applyAll (c :: cs) = (db.apply c).applyAll cs := rfl

theorem DB.applyAll_nil (db : DB) : db.applyAll [] = db := rfl

/-- A property that every call of a list preserves holds after the list. -/
theorem DB.applyAll_preserves (P : DB → Prop) (calls : List Call) (db : DB) (h0 : P db)
    (hstep : ∀ c ∈ calls, ∀ d, P d → P (d.apply c)) : P (db.applyAll calls) := by
  induction calls generalizing db with
  | nil => exact h0
  | cons c cs ih =>
    rw [DB.applyAll_cons]
    exact ih (db.apply c) (hstep c (List.mem_cons_self _ _) db h0)
      (fun c1 hc1 d hd => hstep c1 (List.mem_cons_of_mem _ hc1) d hd)

/-- On a store that rejects by call, a list of calls runs to its end exactly when none of them
is rejected, and then leaves the calls applied in order. -/
theorem runCalls_storeRejecting (reject : Call → Option String) (calls : List Call) (db s : DB) :
    runCalls (storeRejecting reject) calls db = .ok s ↔
      (∀ c ∈ calls, reject c = none) ∧ s = db.applyAll calls := by
  induction calls generalizing db with
  | nil =>
    simp only [runCalls, Except.ok.injEq, List.not_mem_nil, false_imp_iff, implies_true,
      true_and, DB.applyAll_nil]
    exact eq_comm
  | cons c cs ih =>
    simp only [runCalls, storeRejecting, List.mem_cons, forall_eq_or_imp, DB.applyAll_cons]
    cases hc : reject c with
    | some e => simp
    | none =>
      simp only [true_and]
      exact ih (db.apply c)

/-- A successful `SetApplication` on the store: no call was rejected and the persisted state is
the state before with the calls of the walk applied. -/
theorem SetApplication_store (reject : Call → Option String) (driver : String) (k : Consts)
    (db : DB) (app : Application) (flag : Bool)
    (h : (SetApplication (handlerRejecting reject driver k) db app flag).err = none) :
    (∀ c ∈ callsApplication (handlerRejecting reject driver k) flag app, reject c = none) ∧
      (SetApplication (handlerRejecting reject driver k) db app flag).db =
        db.applyAll (callsApplication (handlerRejecting reject driver k) flag app) := by
  obtain ⟨s, hs⟩ := SetApplication_ok_calls _ db app flag h
  rw [SetApplication_of_ok _ db app flag s hs]
  exact (runCalls_storeRejecting reject _ db s).mp hs

/-- A successful `SetResource` on the store: no call was rejected and the persisted state is the
state before with the calls of the walk applied. -/
theorem SetResource_store (reject : Call → Option String) (driver : String) (k : Consts)
    (db : DB) (resource : Resource) (flag : Bool)
    (h : (SetResource (handlerRejecting reject driver k) db resource flag).err = none) :
    (∀ c ∈ callsResource (handlerRejecting reject driver k) flag resource, reject c = none) ∧
      (SetResource (handlerRejecting reject driver k) db resource flag).db =
        db.applyAll (callsResource (handlerRejecting reject driver k) flag resource) := by
  obtain ⟨s, hs⟩ := SetResource_ok_calls _ db resource flag h
  rw [SetResource_of_ok _ db resource flag s hs]
  exact (runCalls_storeRejecting reject _ db s).mp hs

/-- On a store that rejects no call of the walk, `SetApplication` returns nil. -/
theorem SetApplication_store_ok (reject : Call → Option String) (driver : String) (k : Consts)
    (db : DB) (app : Application) (flag : Bool)
    (h : ∀ c ∈ callsApplication (handlerRejecting reject driver k) flag app, reject c = none) :
    (SetApplication (handlerRejecting reject driver k) db app flag).err = none := by
  rw [SetApplication_of_ok _ db app flag _
    ((runCalls_storeRejecting reject _ db _).mpr ⟨h, rfl⟩)]

/-- On a store that rejects no call of the walk, `SetResource` returns nil. -/
theorem SetResource_store_ok (reject : Call → Option String) (driver : String) (k : Consts)
    (db : DB) (resource : Resource) (flag : Bool)
    (h : ∀ c ∈ callsResource (handlerRejecting reject driver k) flag resource, reject c = none) :
    (SetResource (handlerRejecting reject driver k) db resource flag).err = none := by
  rw [SetResource_of_ok _ db resource flag _
    ((runCalls_storeRejecting reject _ db _).mpr ⟨h, rfl⟩)]

/-- C1: after `SetApplication` returns without error the resources linked to the application
are exactly the resources listed in the tree, by primary key, whatever was linked before:
every listed resource is linked and a resource that is not listed is not linked. -/
theorem C1_application_resources_replaced (reject : Call → Option String) (driver : String)
    (k : Consts) (db : DB) (app : Application) (flag : Bool)
    (h : (SetApplication (handlerRejecting reject driver k) db app flag).err = none) :
    (∀ key, (SetApplication (handlerRejecting reject driver k) db app flag).db.application_resources
        app.ID key = true ↔ ∃ r ∈ app.Resources, r.ID = key) ∧
    (∀ r ∈ app.Resources, (SetApplication (handlerRejecting reject driver k) db app
        flag).db.application_resources app.ID r.ID = true) ∧
    (∀ key, (∀ r ∈ app.Resources, r.ID ≠ key) →
      (SetApplication (handlerRejecting reject driver k) db app flag).db.application_resources
        app.ID key = false) := by
  have hlinks : ∀ key,
      (SetApplication (handlerRejecting reject driver k) db app flag).db.application_resources
        app.ID key = decide (∃ r ∈ app.Resources, r.ID = key) := by
    intro key
    rw [(SetApplication_store reject driver k db app flag h).2]
    unfold callsApplication
    rw [DB.applyAll_append]
    simp [DB.applyAll, DB.apply, replaceLinks, walkedApplication, clearedResource]
  refine ⟨?_, ?_, ?_⟩
  · intro key
    rw [hlinks key]
    simp
  · intro r hr
    rw [hlinks r.ID]
    simpa using ⟨r, hr, rfl⟩
  · intro key hkey
    rw [hlinks key]
    simpa using hkey

/-- C1 on the store that accepts every call, from a state in which the application is linked to
another resource. -/
theorem C1_application_resources_replaced_witness :
    (SetApplication (handlerRejecting (fun _ => none) "LOCAL" sampleConsts)
        { DB.empty with application_resources := fun a r => decide (a = 9 ∧ r = 8) }
        sampleApplication true).db.application_resources 9 7 = true ∧
    (SetApplication (handlerRejecting (fun _ => none) "LOCAL" sampleConsts)
        { DB.empty with application_resources := fun a r => decide (a = 9 ∧ r = 8) }
        sampleApplication true).db.application_resources 9 8 = false :=
  ⟨(C1_application_resources_replaced (fun _ => none) "LOCAL" sampleConsts
      { DB.empty with application_resources := fun a r => decide (a = 9 ∧ r = 8) }
      sampleApplication true (by decide)).2.1 sampleResource (by decide),
   (C1_application_resources_replaced (fun _ => none) "LOCAL" sampleConsts
      { DB.empty with application_resources := fun a r => decide (a = 9 ∧ r = 8) }
      sampleApplication true (by decide)).2.2 8 (by decide)⟩

theorem mem_callsResource {σ : Type} (o : ObjectTreeHandler σ) (flag : Bool)
    (resource : Resource) (c : Call) (hc : c ∈ callsResource o flag resource) :
    (∃ p ∈ resource.Packages, c ∈ callsPackage o flag p) ∨
      c = .SaveResource (walkedResource resource) ∨
      c = .ReplacePackages (walkedResource resource) (walkedResource resource).Packages ∨
      c = .ReplaceChecks (walkedResource resource) resource.CISDockerBenchmarkChecks := by
  simpa [callsResource] using hc

theorem mem_callsApplication {σ : Type} (o : ObjectTreeHandler σ) (flag : Bool)
    (app : Application) (c : Call) (hc : c ∈ callsApplication o flag app) :
    (∃ r ∈ app.Resources, c ∈ callsResource o flag r) ∨
      c = .SaveApplication (walkedApplication app) ∨
      c = .ReplaceResources (walkedApplication app) (walkedApplication app).Resources := by
  simpa [callsApplication] using hc

/-- Only a vulnerability reconciliation of the same package changes a package's links. -/
theorem apply_package_vulnerabilities (c : Call) (d : DB) (p v : Nat)
    (h : ∀ pk vs, c = .ReplaceVulnerabilities pk vs → pk.ID ≠ p) :
    (d.apply c).package_vulnerabilities p v = d.package_vulnerabilities p v := by
  cases c with
  | ReplaceVulnerabilities pk vs =>
    have h1 : p ≠ pk.ID := fun h2 => h pk vs rfl h2.symm
    simp [DB.apply, replaceLinks, h1]
  | _ => rfl

/-- C2, as stated, fails: with `updateVulnerabilities` true, on a resource that lists package 1
twice (first with vulnerability 100, then with none), `SetResource` succeeds and package 1 is
not linked to vulnerability 100, though a submitted package with key 1 lists it. -/
theorem C2_counterexample :
    (SetResource (handler "LOCAL" sampleConsts) DB.empty repeatedPackageResource true).err =
      none ∧
    (∃ pkg ∈ repeatedPackageResource.Packages, pkg.ID = 1 ∧
      (⟨100, 5⟩ : Vulnerability) ∈ pkg.Vulnerabilities) ∧
    (SetResource (handler "LOCAL" sampleConsts) DB.empty repeatedPackageResource
      true).db.package_vulnerabilities 1 100 = false := by
  decide

/-- C2, amended: after `SetResource` returns without error, with `updateVulnerabilities` false
every package's vulnerability links are those from before the call, whatever the submitted
packages list; with `updateVulnerabilities` true the vulnerabilities linked to a submitted
package are those of the last package of `R.Packages` with its primary key: the links of a
package that no later package of the list repeats are exactly its submitted vulnerabilities. -/
theorem C2_vulnerability_links (reject : Call → Option String) (driver : String) (k : Consts)
    (db : DB) (resource : Resource) (flag : Bool)
    (h : (SetResource (handlerRejecting reject driver k) db resource flag).err = none) :
    (flag = false → ∀ p v,
      (SetResource (handlerRejecting reject driver k) db resource flag).db.package_vulnerabilities
        p v = db.package_vulnerabilities p v) ∧
    (flag = true → ∀ pre pkg post, resource.Packages = pre ++ pkg :: post →
      (∀ q ∈ post, q.ID ≠ pkg.ID) → ∀ v,
      ((SetResource (handlerRejecting reject driver k) db resource flag).db.package_vulnerabilities
        pkg.ID v = true ↔ ∃ x ∈ pkg.Vulnerabilities, x.ID = v)) := by
  have hdb := (SetResource_store reject driver k db resource flag h).2
  refine ⟨?_, ?_⟩
  · intro hf p v
    rw [hdb]
    apply DB.applyAll_preserves (fun d => d.package_vulnerabilities p v =
      db.package_vulnerabilities p v) _ db rfl
    intro c hc d hd
    rw [apply_package_vulnerabilities c d p v, hd]
    intro pk vs hpk
    subst hpk
    rcases mem_callsResource _ flag resource _ hc with ⟨q, _, hq⟩ | h1 | h1 | h1
    · rcases mem_callsPackage _ flag q _ hq with h2 | h2 | ⟨h2, _⟩
      · cases h2
      · cases h2
      · rw [hf] at h2
        cases h2
    · cases h1
    · cases h1
    · cases h1
  · intro hf pre pkg post hpk hpost v
    rw [hdb]
    subst hf
    have hsplit : callsResource (handlerRejecting reject driver k) true resource =
        (pre.flatMap (callsPackage (handlerRejecting reject driver k) true) ++
          (callsLockTable (handlerRejecting reject driver k) k.packageTableName ++
            [.SavePackage pkg])) ++ ([.ReplaceVulnerabilities pkg pkg.Vulnerabilities] ++
        (post.flatMap (callsPackage (handlerRejecting reject driver k) true) ++
          [.SaveResource (walkedResource resource),
           .ReplacePackages (walkedResource resource) (walkedResource resource).Packages,
           .ReplaceChecks (walkedResource resource) resource.CISDockerBenchmarkChecks])) := by
      simp [callsResource, hpk, callsPackage, handlerRejecting]
    rw [hsplit, DB.applyAll_append db,
      DB.applyAll_append (db.applyAll _) [.ReplaceVulnerabilities pkg pkg.Vulnerabilities]]
    have hstep : ∀ d0 : DB, ((d0.applyAll [.ReplaceVulnerabilities pkg pkg.Vulnerabilities]).applyAll
        (post.flatMap (callsPackage (handlerRejecting reject driver k) true) ++
          [.SaveResource (walkedResource resource),
           .ReplacePackages (walkedResource resource) (walkedResource resource).Packages,
           .ReplaceChecks (walkedResource resource)
             resource.CISDockerBenchmarkChecks])).package_vulnerabilities pkg.ID v =
        decide (∃ x ∈ pkg.Vulnerabilities, x.ID = v) := by
      intro d0
      apply DB.applyAll_preserves (fun d => d.package_vulnerabilities pkg.ID v =
        decide (∃ x ∈ pkg.Vulnerabilities, x.ID = v))
      · simp [DB.applyAll, DB.apply, replaceLinks]
      · intro c hc d hd
        rw [apply_package_vulnerabilities c d pkg.ID v, hd]
        intro pk vs hc1
        subst hc1
        simp only [List.mem_append, List.mem_flatMap, List.mem_cons, List.mem_singleton,
          List.not_mem_nil, or_false, reduceCtorEq] at hc
        obtain ⟨q, hq, hc⟩ := hc
        rcases mem_callsPackage _ true q _ hc with h2 | h2 | ⟨_, h2⟩
        · cases h2
        · cases h2
        · cases h2
          exact hpost _ hq
    rw [hstep]
    simp

/-- C2 (amended) from a state in which package 1 is linked to vulnerability 100, submitting
package 1 without vulnerabilities: the link stays with the flag false and goes with the flag
true. -/
theorem C2_vulnerability_links_witness :
    (SetResource (handlerRejecting (fun _ => none) "LOCAL" sampleConsts) linkedDB bareResource
        false).db.package_vulnerabilities 1 100 = true ∧
    ¬ (SetResource (handlerRejecting (fun _ => none) "LOCAL" sampleConsts) linkedDB bareResource
        true).db.package_vulnerabilities 1 100 = true :=
  ⟨((C2_vulnerability_links (fun _ => none) "LOCAL" sampleConsts linkedDB bareResource false
      (by decide)).1 rfl 1 100).trans (by decide),
   fun hl => by
    have h1 := ((C2_vulnerability_links (fun _ => none) "LOCAL" sampleConsts linkedDB
      bareResource true (by decide)).2 rfl [] ⟨1, 10, []⟩ [] rfl (by simp) 100).mp hl
    simp at h1⟩

theorem upsertAll_of_not_mem (rows : List (Nat × Nat)) (t : Nat → Option Nat) (key : Nat)
    (h : ∀ row ∈ rows, row.1 ≠ key) : upsertAll t rows key = t key := by
  induction rows generalizing t with
  | nil => rfl
  | cons row rest ih =>
    simp only [upsertAll, List.foldl_cons] at ih ⊢
    rw [ih _ (fun r hr => h r (List.mem_cons_of_mem _ hr))]
    have h1 : key ≠ row.1 := fun h2 => h row (List.mem_cons_self _ _) h2.symm
    simp [upsert, h1]

theorem upsertAll_isSome (rows : List (Nat × Nat)) (t : Nat → Option Nat) (key : Nat)
    (h : (t key).isSome = true) : (upsertAll t rows key).isSome = true := by
  induction rows generalizing t with
  | nil => exact h
  | cons row rest ih =>
    simp only [upsertAll, List.foldl_cons] at ih ⊢
    apply ih
    unfold upsert
    split_ifs
    · rfl
    · exact h

/-- No call deletes an application, resource, package or vulnerability row. -/
theorem apply_keeps_rows (c : Call) (d : DB) (key : Nat) :
    ((d.applications key).isSome = true → ((d.apply c).applications key).isSome = true) ∧
    ((d.resources key).isSome = true → ((d.apply c).resources key).isSome = true) ∧
    ((d.packages key).isSome = true → ((d.apply c).packages key).isSome = true) ∧
    ((d.vulnerabilities key).isSome = true →
      ((d.apply c).vulnerabilities key).isSome = true) := by
  have hu : ∀ (t : Nat → Option Nat) (k f : Nat), (t key).isSome = true →
      (upsert t k f key).isSome = true := by
    intro t k f h
    unfold upsert
    split_ifs
    · rfl
    · exact h
  cases c <;> simp only [DB.apply] <;>
    exact ⟨fun h => by first | exact h | exact hu _ _ _ h,
      fun h => by first | exact h | exact hu _ _ _ h | exact upsertAll_isSome _ _ _ h,
      fun h => by first | exact h | exact hu _ _ _ h | exact upsertAll_isSome _ _ _ h,
      fun h => by first | exact h | exact hu _ _ _ h | exact upsertAll_isSome _ _ _ h⟩

/-- The calls of an application's walk keep every row of the four entity tables. -/
theorem applyAll_keeps_rows (calls : List Call) (db : DB) (key : Nat) :
    ((db.applications key).isSome = true → ((db.applyAll calls).applications key).isSome = true) ∧
    ((db.resources key).isSome = true → ((db.applyAll calls).resources key).isSome = true) ∧
    ((db.packages key).isSome = true → ((db.applyAll calls).packages key).isSome = true) ∧
    ((db.vulnerabilities key).isSome = true →
      ((db.applyAll calls).vulnerabilities key).isSome = true) := by
  apply DB.applyAll_preserves (fun d =>
    ((db.applications key).isSome = true → (d.applications key).isSome = true) ∧
    ((db.resources key).isSome = true → (d.resources key).isSome = true) ∧
    ((db.packages key).isSome = true → (d.packages key).isSome = true) ∧
    ((db.vulnerabilities key).isSome = true → (d.vulnerabilities key).isSome = true))
  · exact ⟨id, id, id, id⟩
  · intro c _ d hd
    have h1 := apply_keeps_rows c d key
    exact ⟨fun h => h1.1 (hd.1 h), fun h => h1.2.1 (hd.2.1 h), fun h => h1.2.2.1 (hd.2.2.1 h),
      fun h => h1.2.2.2 (hd.2.2.2 h)⟩

/-- What the store holds about a resource that the application's tree does not list is left as
it is by every call of the walk, but for its link to this application. -/
theorem apply_unlisted_resource {σ : Type} (o : ObjectTreeHandler σ) (flag : Bool)
    (app : Application) (b : Nat) (hb : ∀ r ∈ app.Resources, r.ID ≠ b) (c : Call)
    (hc : c ∈ callsApplication o flag app) (d : DB) :
    (d.apply c).resources b = d.resources b ∧
    (∀ p, (d.apply c).resource_packages b p = d.resource_packages b p) ∧
    (∀ ch, (d.apply c).resource_cis_d_b_checks b ch = d.resource_cis_d_b_checks b ch) ∧
    (∀ a, a ≠ app.ID → (d.apply c).application_resources a b = d.application_resources a b) := by
  rcases mem_callsApplication o flag app c hc with ⟨r, hr, hc1⟩ | h1 | h1
  · have hne : b ≠ r.ID := fun h => hb r hr h.symm
    rcases mem_callsResource o flag r c hc1 with ⟨p, _, hc2⟩ | h2 | h2 | h2
    · rcases mem_callsPackage o flag p c hc2 with h3 | h3 | ⟨_, h3⟩ <;> subst h3 <;>
        exact ⟨rfl, fun _ => rfl, fun _ => rfl, fun _ _ => rfl⟩
    · subst h2
      refine ⟨?_, fun _ => rfl, fun _ => rfl, fun _ _ => rfl⟩
      simp [DB.apply, upsert, walkedResource, hne]
    · subst h2
      refine ⟨rfl, fun p => ?_, fun _ => rfl, fun _ _ => rfl⟩
      simp [DB.apply, replaceLinks, walkedResource, hne]
    · subst h2
      refine ⟨rfl, fun _ => rfl, fun ch => ?_, fun _ _ => rfl⟩
      simp [DB.apply, replaceLinks, walkedResource, hne]
  · subst h1
    exact ⟨rfl, fun _ => rfl, fun _ => rfl, fun _ _ => rfl⟩
  · subst h1
    refine ⟨?_, fun _ => rfl, fun _ => rfl, fun a ha => ?_⟩
    · simp only [DB.apply]
      apply upsertAll_of_not_mem
      intro row hrow
      simp only [walkedApplication, List.mem_map] at hrow
      obtain ⟨r1, ⟨r, hr, hr1⟩, hrow⟩ := hrow
      rw [← hrow, ← hr1]
      exact hb r hr
    · simp [DB.apply, replaceLinks, walkedApplication, ha]

/-- The row of a check whose key no listed resource submits is left as it is by every call of
the walk. -/
theorem apply_unsubmitted_check {σ : Type} (o : ObjectTreeHandler σ) (flag : Bool)
    (app : Application) (ch : Nat)
    (hch : ∀ r ∈ app.Resources, ∀ x ∈ r.CISDockerBenchmarkChecks, x.ID ≠ ch) (c : Call)
    (hc : c ∈ callsApplication o flag app) (d : DB) :
    (d.apply c).cis_d_b_checks ch = d.cis_d_b_checks ch := by
  rcases mem_callsApplication o flag app c hc with ⟨r, hr, hc1⟩ | h1 | h1
  · rcases mem_callsResource o flag r c hc1 with ⟨p, _, hc2⟩ | h2 | h2 | h2
    · rcases mem_callsPackage o flag p c hc2 with h3 | h3 | ⟨_, h3⟩ <;> subst h3 <;> rfl
    · subst h2
      rfl
    · subst h2
      rfl
    · subst h2
      simp only [DB.apply]
      apply upsertAll_of_not_mem
      intro row hrow
      simp only [List.mem_map] at hrow
      obtain ⟨x, hx, hrow⟩ := hrow
      rw [← hrow]
      exact hch r hr x hx
  · subst h1
    rfl
  · subst h1
    rfl

/-- The links of an application after the calls of its walk. -/
theorem applyAll_application_resources {σ : Type} (o : ObjectTreeHandler σ) (flag : Bool)
    (app : Application) (db : DB) (key : Nat) :
    (db.applyAll (callsApplication o flag app)).application_resources app.ID key =
      decide (∃ r ∈ app.Resources, r.ID = key) := by
  unfold callsApplication
  rw [DB.applyAll_append]
  simp [DB.applyAll, DB.apply, replaceLinks, walkedApplication, clearedResource]

/-- C5, as stated, fails: application 9 is linked to resources 7 and 8, resource 8 is linked to
check 4 whose row holds 40; a `SetApplication` that lists only resource 7, with check 4 holding
41, succeeds, and the check linked to the unlisted resource 8 is rewritten to 41. -/
theorem C5_counterexample :
    (SetApplication (handler "LOCAL" sampleConsts) twoResourcesDB sharedCheckApplication
      true).err = none ∧
    (∀ r ∈ sharedCheckApplication.Resources, r.ID ≠ 8) ∧
    twoResourcesDB.application_resources 9 8 = true ∧
    twoResourcesDB.resource_cis_d_b_checks 8 4 = true ∧
    twoResourcesDB.cis_d_b_checks 4 = some 40 ∧
    (SetApplication (handler "LOCAL" sampleConsts) twoResourcesDB sharedCheckApplication
      true).db.resource_cis_d_b_checks 8 4 = true ∧
    (SetApplication (handler "LOCAL" sampleConsts) twoResourcesDB sharedCheckApplication
      true).db.cis_d_b_checks 4 = some 41 := by
  decide

/-- C5, amended: after a successful `SetApplication`, a resource that the tree does not list is
not linked to the application (its junction row is gone), while its own row, its package links,
its links to benchmark checks and its links to other applications are as before the call; the
row of a benchmark check is as before when no listed resource submits a check with its key;
and no successful `SetApplication` or `SetResource` deletes a resource, package or
vulnerability row. -/
theorem C5_unlisted_resource_only_unlinked (reject : Call → Option String) (driver : String)
    (k : Consts) (db : DB) (app : Application) (resource : Resource) (flag : Bool) :
    ((SetApplication (handlerRejecting reject driver k) db app flag).err = none →
      ∀ b, (∀ r ∈ app.Resources, r.ID ≠ b) →
        (SetApplication (handlerRejecting reject driver k) db app flag).db.application_resources
            app.ID b = false ∧
          (SetApplication (handlerRejecting reject driver k) db app flag).db.resources b =
            db.resources b ∧
          (∀ p, (SetApplication (handlerRejecting reject driver k) db app
              flag).db.resource_packages b p = db.resource_packages b p) ∧
          (∀ ch, (SetApplication (handlerRejecting reject driver k) db app
              flag).db.resource_cis_d_b_checks b ch = db.resource_cis_d_b_checks b ch) ∧
          (∀ a, a ≠ app.ID → (SetApplication (handlerRejecting reject driver k) db app
              flag).db.application_resources a b = db.application_resources a b)) ∧
    ((SetApplication (handlerRejecting reject driver k) db app flag).err = none →
      ∀ ch, (∀ r ∈ app.Resources, ∀ x ∈ r.CISDockerBenchmarkChecks, x.ID ≠ ch) →
        (SetApplication (handlerRejecting reject driver k) db app flag).db.cis_d_b_checks ch =
          db.cis_d_b_checks ch) ∧
    ((SetApplication (handlerRejecting reject driver k) db app flag).err = none →
      ∀ key,
        ((db.resources key).isSome = true → ((SetApplication (handlerRejecting reject driver k)
            db app flag).db.resources key).isSome = true) ∧
        ((db.packages key).isSome = true → ((SetApplication (handlerRejecting reject driver k)
            db app flag).db.packages key).isSome = true) ∧
        ((db.vulnerabilities key).isSome = true → ((SetApplication
            (handlerRejecting reject driver k) db app flag).db.vulnerabilities key).isSome =
              true)) ∧
    ((SetResource (handlerRejecting reject driver k) db resource flag).err = none →
      ∀ key,
        ((db.resources key).isSome = true → ((SetResource (handlerRejecting reject driver k)
            db resource flag).db.resources key).isSome = true) ∧
        ((db.packages key).isSome = true → ((SetResource (handlerRejecting reject driver k)
            db resource flag).db.packages key).isSome = true) ∧
        ((db.vulnerabilities key).isSome = true → ((SetResource
            (handlerRejecting reject driver k) db resource flag).db.vulnerabilities key).isSome =
              true)) := by
  refine ⟨?_, ?_, ?_, ?_⟩
  · intro h b hb
    rw [(SetApplication_store reject driver k db app flag h).2]
    refine ⟨?_, ?_⟩
    · rw [applyAll_application_resources]
      simpa using hb
    · apply DB.applyAll_preserves (fun d => d.resources b = db.resources b ∧
        (∀ p, d.resource_packages b p = db.resource_packages b p) ∧
        (∀ ch, d.resource_cis_d_b_checks b ch = db.resource_cis_d_b_checks b ch) ∧
        (∀ a, a ≠ app.ID → d.application_resources a b = db.application_resources a b))
      · exact ⟨rfl, fun _ => rfl, fun _ => rfl, fun _ _ => rfl⟩
      · intro c hc d hd
        have h1 := apply_unlisted_resource _ flag app b hb c hc d
        exact ⟨h1.1.trans hd.1, fun p => (h1.2.1 p).trans (hd.2.1 p),
          fun ch => (h1.2.2.1 ch).trans (hd.2.2.1 ch),
          fun a ha => (h1.2.2.2 a ha).trans (hd.2.2.2 a ha)⟩
  · intro h ch hch
    rw [(SetApplication_store reject driver k db app flag h).2]
    apply DB.applyAll_preserves (fun d => d.cis_d_b_checks ch = db.cis_d_b_checks ch) _ db rfl
    intro c hc d hd
    exact (apply_unsubmitted_check _ flag app ch hch c hc d).trans hd
  · intro h key
    rw [(SetApplication_store reject driver k db app flag h).2]
    exact (applyAll_keeps_rows _ db key).2
  · intro h key
    rw [(SetResource_store reject driver k db resource flag h).2]
    exact (applyAll_keeps_rows _ db key).2

/-- C5 (amended) from a state in which application 9 is linked to resources 7 and 8, submitting
only resource 7 with check 3: resource 8 is unlinked, keeps its row and its link to check 4, and
the row of check 4 still holds 40. -/
theorem C5_unlisted_resource_only_unlinked_witness :
    (SetApplication (handlerRejecting (fun _ => none) "LOCAL" sampleConsts) twoResourcesDB
        sampleApplication true).db.application_resources 9 8 = false ∧
    (SetApplication (handlerRejecting (fun _ => none) "LOCAL" sampleConsts) twoResourcesDB
        sampleApplication true).db.resources 8 = some 80 ∧
    (SetApplication (handlerRejecting (fun _ => none) "LOCAL" sampleConsts) twoResourcesDB
        sampleApplication true).db.resource_cis_d_b_checks 8 4 = true ∧
    (SetApplication (handlerRejecting (fun _ => none) "LOCAL" sampleConsts) twoResourcesDB
        sampleApplication true).db.cis_d_b_checks 4 = some 40 :=
  ⟨((C5_unlisted_resource_only_unlinked (fun _ => none) "LOCAL" sampleConsts twoResourcesDB
      sampleApplication sampleResource true).1 (by decide) 8 (by decide)).1,
   ((C5_unlisted_resource_only_unlinked (fun _ => none) "LOCAL" sampleConsts twoResourcesDB
      sampleApplication sampleResource true).1 (by decide) 8 (by decide)).2.1.trans (by decide),
   (((C5_unlisted_resource_only_unlinked (fun _ => none) "LOCAL" sampleConsts twoResourcesDB
      sampleApplication sampleResource true).1 (by decide) 8 (by decide)).2.2.2.1 4).trans
      (by decide),
   ((C5_unlisted_resource_only_unlinked (fun _ => none) "LOCAL" sampleConsts twoResourcesDB
      sampleApplication sampleResource true).2.1 (by decide) 4 (by decide)).trans (by decide)⟩

/-! ## Idempotence -/

theorem linkCell_injective (a b : Bool) (h : linkCell a = linkCell b) : a = b := by
  cases a <;> cases b <;> simp [linkCell] at h ⊢

/-- Two states with the same cells are equal. -/
theorem DB.ext_read (d1 d2 : DB) (h : ∀ l, d1.read l = d2.read l) : d1 = d2 := by
  cases d1
  cases d2
  simp only [DB.mk.injEq]
  refine ⟨?_, ?_, ?_, ?_, ?_, ?_, ?_, ?_, ?_⟩
  · exact funext fun key => h (.applications key)
  · exact funext fun key => h (.resources key)
  · exact funext fun key => h (.packages key)
  · exact funext fun key => h (.vulnerabilities key)
  · exact funext fun key => h (.cis_d_b_checks key)
  · exact funext fun a => funext fun r => linkCell_injective _ _ (h (.application_resources a r))
  · exact funext fun r => funext fun p => linkCell_injective _ _ (h (.resource_packages r p))
  · exact funext fun r => funext fun c =>
      linkCell_injective _ _ (h (.resource_cis_d_b_checks r c))
  · exact funext fun p => funext fun v =>
      linkCell_injective _ _ (h (.package_vulnerabilities p v))

theorem upsert_overwrites (key fields k : Nat) :
    (∀ t, upsert t key fields k = t k) ∨ ∃ v, ∀ t, upsert t key fields k = v := by
  by_cases hk : k = key
  · exact Or.inr ⟨some fields, fun t => by simp [upsert, hk]⟩
  · exact Or.inl fun t => by simp [upsert, hk]

theorem upsertAll_overwrites (rows : List (Nat × Nat)) (k : Nat) :
    (∀ t, upsertAll t rows k = t k) ∨ ∃ v, ∀ t, upsertAll t rows k = v := by
  induction rows with
  | nil => exact Or.inl fun _ => rfl
  | cons row rest ih =>
    have hcons : ∀ t, upsertAll t (row :: rest) k = upsertAll (upsert t row.1 row.2) rest k :=
      fun _ => rfl
    rcases ih with h | ⟨v, h⟩
    · rcases upsert_overwrites row.1 row.2 k with h1 | ⟨v, h1⟩
      · exact Or.inl fun t => by rw [hcons, h, h1]
      · exact Or.inr ⟨v, fun t => by rw [hcons, h, h1]⟩
    · exact Or.inr ⟨v, fun t => by rw [hcons, h]⟩

theorem replaceLinks_overwrites (parent : Nat) (children : List Nat) (p c : Nat) :
    (∀ links, replaceLinks links parent children p c = links p c) ∨
      ∃ v, ∀ links, replaceLinks links parent children p c = v := by
  by_cases hp : p = parent
  · exact Or.inr ⟨decide (c ∈ children), fun links => by simp [replaceLinks, hp]⟩
  · exact Or.inl fun links => by simp [replaceLinks, hp]

/-- Every call overwrites. -/
theorem apply_overwrites (c : Call) : Overwrites (fun d => d.apply c) := by
  intro l
  cases c with
  | Exec sql => exact Or.inl fun _ => rfl
  | SavePackage pkg =>
    cases l with
    | packages key =>
      rcases upsert_overwrites pkg.ID pkg.Fields key with h | ⟨v, h⟩
      · exact Or.inl fun d => h d.packages
      · exact Or.inr ⟨v, fun d => h d.packages⟩
    | _ => exact Or.inl fun _ => rfl
  | ReplaceVulnerabilities pkg vs =>
    cases l with
    | vulnerabilities key =>
      rcases upsertAll_overwrites (vs.map fun v => (v.ID, v.Fields)) key with h | ⟨v, h⟩
      · exact Or.inl fun d => h d.vulnerabilities
      · exact Or.inr ⟨v, fun d => h d.vulnerabilities⟩
    | package_vulnerabilities p v =>
      rcases replaceLinks_overwrites pkg.ID (vs.map fun v => v.ID) p v with h | ⟨b, h⟩
      · exact Or.inl fun d => congrArg linkCell (h d.package_vulnerabilities)
      · exact Or.inr ⟨linkCell b, fun d => congrArg linkCell (h d.package_vulnerabilities)⟩
    | _ => exact Or.inl fun _ => rfl
  | SaveResource r =>
    cases l with
    | resources key =>
      rcases upsert_overwrites r.ID r.Fields key with h | ⟨v, h⟩
      · exact Or.inl fun d => h d.resources
      · exact Or.inr ⟨v, fun d => h d.resources⟩
    | _ => exact Or.inl fun _ => rfl
  | ReplacePackages r ps =>
    cases l with
    | packages key =>
      rcases upsertAll_overwrites (ps.map fun p => (p.ID, p.Fields)) key with h | ⟨v, h⟩
      · exact Or.inl fun d => h d.packages
      · exact Or.inr ⟨v, fun d => h d.packages⟩
    | resource_packages r1 p =>
      rcases replaceLinks_overwrites r.ID (ps.map fun p => p.ID) r1 p with h | ⟨b, h⟩
      · exact Or.inl fun d => congrArg linkCell (h d.resource_packages)
      · exact Or.inr ⟨linkCell b, fun d => congrArg linkCell (h d.resource_packages)⟩
    | _ => exact Or.inl fun _ => rfl
  | ReplaceChecks r cs =>
    cases l with
    | cis_d_b_checks key =>
      rcases upsertAll_overwrites (cs.map fun c => (c.ID, c.Fields)) key with h | ⟨v, h⟩
      · exact Or.inl fun d => h d.cis_d_b_checks
      · exact Or.inr ⟨v, fun d => h d.cis_d_b_checks⟩
    | resource_cis_d_b_checks r1 ch =>
      rcases replaceLinks_overwrites r.ID (cs.map fun c => c.ID) r1 ch with h | ⟨b, h⟩
      · exact Or.inl fun d => congrArg linkCell (h d.resource_cis_d_b_checks)
      · exact Or.inr ⟨linkCell b, fun d => congrArg linkCell (h d.resource_cis_d_b_checks)⟩
    | _ => exact Or.inl fun _ => rfl
  | SaveApplication a =>
    cases l with
    | applications key =>
      rcases upsert_overwrites a.ID a.Fields key with h | ⟨v, h⟩
      · exact Or.inl fun d => h d.applications
      · exact Or.inr ⟨v, fun d => h d.applications⟩
    | _ => exact Or.inl fun _ => rfl
  | ReplaceResources a rs =>
    cases l with
    | resources key =>
      rcases upsertAll_overwrites (rs.map fun r => (r.ID, r.Fields)) key with h | ⟨v, h⟩
      · exact Or.inl fun d => h d.resources
      · exact Or.inr ⟨v, fun d => h d.resources⟩
    | application_resources a1 r =>
      rcases replaceLinks_overwrites a.ID (rs.map fun r => r.ID) a1 r with h | ⟨b, h⟩
      · exact Or.inl fun d => congrArg linkCell (h d.application_resources)
      · exact Or.inr ⟨linkCell b, fun d => congrArg linkCell (h d.application_resources)⟩
    | _ => exact Or.inl fun _ => rfl

theorem overwrites_comp (f g : DB → DB) (hf : Overwrites f) (hg : Overwrites g) :
    Overwrites (fun d => g (f d)) := by
  intro l
  rcases hg l with h | ⟨v, h⟩
  · rcases hf l with h1 | ⟨v, h1⟩
    · exact Or.inl fun d => (h (f d)).trans (h1 d)
    · exact Or.inr ⟨v, fun d => (h (f d)).trans (h1 d)⟩
  · exact Or.inr ⟨v, fun d => h (f d)⟩

/-- A list of calls overwrites. -/
theorem applyAll_overwrites (calls : List Call) : Overwrites (fun d => d.applyAll calls) := by
  induction calls with
  | nil => exact fun _ => Or.inl fun _ => rfl
  | cons c cs ih => exact overwrites_comp _ _ (apply_overwrites c) ih

/-- Doing an overwriting update twice is doing it once. -/
theorem overwrites_idempotent (f : DB → DB) (hf : Overwrites f) (d : DB) : f (f d) = f d := by
  apply DB.ext_read
  intro l
  rcases hf l with h | ⟨v, h⟩
  · exact h (f d)
  · exact (h (f d)).trans (h d).symm

/-- C6: on the store that accepts every call, `SetApplication` returns no error, called once or
twice in succession with the same tree and flag; and on a store that rejects by call, when a
first `SetApplication` returns no error a second one with the same tree and flag returns no
error either and leaves the persisted state of the first: the same entity rows, the same
application-resource, resource-package, resource-check and package-vulnerability links (a
junction table holds a key pair once or not at all). -/
theorem C6_set_application_idempotent (reject : Call → Option String) (driver : String)
    (k : Consts) (db : DB) (app : Application) (flag : Bool) :
    (SetApplication (handler driver k) db app flag).err = none ∧
    (SetApplication (handler driver k)
        (SetApplication (handler driver k) db app flag).db app flag).err = none ∧
    (SetApplication (handler driver k)
        (SetApplication (handler driver k) db app flag).db app flag).db =
      (SetApplication (handler driver k) db app flag).db ∧
    ((SetApplication (handlerRejecting reject driver k) db app flag).err = none →
      (SetApplication (handlerRejecting reject driver k)
          (SetApplication (handlerRejecting reject driver k) db app flag).db app flag).err =
        none ∧
      (SetApplication (handlerRejecting reject driver k)
          (SetApplication (handlerRejecting reject driver k) db app flag).db app flag).db =
        (SetApplication (handlerRejecting reject driver k) db app flag).db) := by
  have key : ∀ rj : Call → Option String,
      (SetApplication (handlerRejecting rj driver k) db app flag).err = none →
      (SetApplication (handlerRejecting rj driver k)
          (SetApplication (handlerRejecting rj driver k) db app flag).db app flag).err =
        none ∧
      (SetApplication (handlerRejecting rj driver k)
          (SetApplication (handlerRejecting rj driver k) db app flag).db app flag).db =
        (SetApplication (handlerRejecting rj driver k) db app flag).db := by
    intro rj h
    obtain ⟨hrej, hdb⟩ := SetApplication_store rj driver k db app flag h
    have h2 := SetApplication_store_ok rj driver k
      (SetApplication (handlerRejecting rj driver k) db app flag).db app flag hrej
    refine ⟨h2, ?_⟩
    rw [(SetApplication_store rj driver k _ app flag h2).2, hdb]
    exact overwrites_idempotent _ (applyAll_overwrites _) db
  have h1 : (SetApplication (handler driver k) db app flag).err = none :=
    SetApplication_store_ok (fun _ => none) driver k db app flag (fun _ _ => rfl)
  exact ⟨h1, (key (fun _ => none) h1).1, (key (fun _ => none) h1).2, key reject⟩

/-- C6 on an application without packages, at a store that rejects package saves only. -/
theorem C6_set_application_idempotent_witness :
    (SetApplication (handlerRejecting rejectSavePackage "POSTGRES" sampleConsts)
        (SetApplication (handlerRejecting rejectSavePackage "POSTGRES" sampleConsts)
          twoResourcesDB packagelessApplication true).db
        packagelessApplication true).err = none :=
  ((C6_set_application_idempotent rejectSavePackage "POSTGRES" sampleConsts twoResourcesDB
    packagelessApplication true).2.2.2 (by decide)).1

end KubeClarity
